import Mathlib

/-
Verification of the 3D kinematic collision subsystem of the BevyGame
repository (src/game/physics/components.rs, src/game/physics/movement.rs).

The Rust code computes with `f32`; this development models `f32` values as
real numbers (`ℝ`).  Square roots (`Vec3::length`, `normalize`) are modelled
with `Real.sqrt`.  Where the Rust code divides by zero (producing `NaN` or
`±inf`), the real-number model produces `0` (Lean's division-by-zero
convention); no theorem below depends on such a branch except where
explicitly noted.  `f32::INFINITY` sentinels used as loop initialisers are
modelled with `Option ℝ` state (`none` = "+infinity so far", every finite
value compares below it) so that all definitions stay over `ℝ`.
-/

namespace BevyGame

noncomputable section

open Classical

/-- Model of `glam::Vec3` (three `f32` components, modelled as reals). -/
structure Vec3 where
  x : ℝ
  y : ℝ
  z : ℝ

namespace Vec3

instance : Add Vec3 := ⟨fun a b => ⟨a.x + b.x, a.y + b.y, a.z + b.z⟩⟩

instance : Sub Vec3 := ⟨fun a b => ⟨a.x - b.x, a.y - b.y, a.z - b.z⟩⟩

instance : Neg Vec3 := ⟨fun a => ⟨-a.x, -a.y, -a.z⟩⟩

instance : SMul ℝ Vec3 := ⟨fun s a => ⟨s * a.x, s * a.y, s * a.z⟩⟩

/-- The zero vector (`Vec3::ZERO`). -/
def zero : Vec3 := ⟨0, 0, 0⟩

/-- `Vec3::X`. -/
def unitX : Vec3 := ⟨1, 0, 0⟩

/-- `Vec3::Y`. -/
def unitY : Vec3 := ⟨0, 1, 0⟩

/-- `Vec3::Z`. -/
def unitZ : Vec3 := ⟨0, 0, 1⟩

/-- `Vec3::dot`. -/
def dot (a b : Vec3) : ℝ := a.x * b.x + a.y * b.y + a.z * b.z

/-- `Vec3::cross`. -/
def cross (a b : Vec3) : Vec3 :=
  ⟨a.y * b.z - a.z * b.y, a.z * b.x - a.x * b.z, a.x * b.y - a.y * b.x⟩

/-- `Vec3::length_squared`. -/
def length_squared (a : Vec3) : ℝ := dot a a

/-- `Vec3::length` (`sqrt` of the self dot product). -/
def length (a : Vec3) : ℝ := Real.sqrt (dot a a)

/-- `Vec3::normalize` (`v / v.length()`).  For the zero vector `glam`
produces non-finite components; the real model produces the zero vector. -/
def normalize (a : Vec3) : Vec3 := (length a)⁻¹ • a

/-- `Vec3::min_element`. -/
def min_element (a : Vec3) : ℝ := min a.x (min a.y a.z)

end Vec3

/-- `f32::signum`, restricted to the values the model can see: the sign of a
real number, with the convention that `signum 0 = 1` (Rust's `signum` of
positive zero). -/
def signum (x : ℝ) : ℝ := if x < 0 then -1 else 1

/-- `f32::clamp` (the code only calls it with `lo ≤ hi`). -/
def clampR (x lo hi : ℝ) : ℝ := if x < lo then lo else if x > hi then hi else x

/-- The epsilon threshold `1e-6` used throughout the collision code. -/
def EPS : ℝ := 1 / 1000000

/-- `Collision { position, normal, depth }` (the `WorldCoords` wrapper around
the position is a plain newtype and is modelled away). -/
structure Collision where
  position : Vec3
  normal : Vec3
  depth : ℝ

/-- The capsule payload of `ColliderType::Capsule { start, end, radius }`
(`end` is renamed `endp`, `end` being a Lean keyword). -/
structure Capsule where
  start : Vec3
  endp : Vec3
  radius : ℝ

/-- `Face { vertices: [usize; 3], normal: Vec3 }`. -/
structure Face where
  vertices : List ℕ
  normal : Vec3

/-- `Hull { vertices: Vec<Vec3>, faces: Vec<Face> }`. -/
structure Hull where
  vertices : List Vec3
  faces : List Face

/-- `compute_normal`: normalized cross product of the two edges out of `v0`. -/
def compute_normal (v0 v1 v2 : Vec3) : Vec3 :=
  Vec3.normalize (Vec3.cross (v1 - v0) (v2 - v0))

/-- Index lookup `vertices[i]` (all indices used by the code are in range;
out-of-range lookups default to the zero vector). -/
def vget (vs : List Vec3) (i : ℕ) : Vec3 := vs.getD i Vec3.zero

/-- The deduplication loop at the start of `Hull::split_face`: walk the quad's
indices in order, keeping an index (and its point) only if the point has not
been seen yet. -/
def dedupQuad (vs : List Vec3) : List ℕ → List ℕ × List Vec3 → List ℕ × List Vec3
  | [], acc => acc
  | p :: rest, (di, dp) =>
      if vget vs p ∈ dp then dedupQuad vs rest (di, dp)
      else dedupQuad vs rest (di ++ [p], dp ++ [vget vs p])

/-- `Hull::split_face`: split one quad of the 8-vertex hull into 0, 1 or 2
triangular faces depending on how many of its points are unique. -/
def split_face (vs : List Vec3) (quad : List ℕ) : List Face :=
  let dd := dedupQuad vs quad ([], [])
  let di := dd.1
  let dp := dd.2
  match dp.length with
  | 4 =>
      let face_center : Vec3 :=
        (1 / 4 : ℝ) • (vget dp 0 + vget dp 1 + vget dp 2 + vget dp 3)
      let test_normal := compute_normal (vget dp 0) (vget dp 3) (vget dp 1)
      let fs : (List ℕ) × (List ℕ) :=
        if Vec3.dot test_normal face_center ≤ 0 then ([0, 3, 1], [1, 3, 2])
        else ([0, 2, 1], [0, 3, 2])
      let construct_face : List ℕ → Face := fun f =>
        { vertices := [di.getD (f.getD 0 0) 0, di.getD (f.getD 1 0) 0, di.getD (f.getD 2 0) 0]
          normal := compute_normal (vget dp (f.getD 0 0)) (vget dp (f.getD 1 0))
            (vget dp (f.getD 2 0)) }
      [construct_face fs.1, construct_face fs.2]
  | 3 =>
      [{ vertices := [di.getD 0 0, di.getD 1 0, di.getD 2 0]
         normal := compute_normal (vget dp 0) (vget dp 1) (vget dp 2) }]
  | _ => []

/-- `Hull::get_faces`: the six fixed direction quads (`pos_y`, `neg_y`,
`pos_x`, `neg_x`, `pos_z`, `neg_z`), each split into triangles. -/
def get_faces (vs : List Vec3) : List Face :=
  ([[7, 6, 5, 4], [3, 2, 1, 0], [1, 2, 6, 7], [0, 4, 5, 3], [2, 3, 5, 6], [0, 1, 7, 4]].map
    (fun quad => split_face vs quad)).flatten

/-- `Hull::new`. -/
def Hull.new (vs : List Vec3) : Hull :=
  { vertices := vs, faces := get_faces vs }

/-- `ColliderType`: the tagged shape union. -/
inductive ColliderType where
  | aabb : Vec3 → ColliderType
  | capsule : Capsule → ColliderType
  | hull : Hull → ColliderType

/-- `Collider { collider_type, position }` (`WorldCoords` modelled as the
underlying `Vec3`). -/
structure Collider where
  collider_type : ColliderType
  position : Vec3

/-- `Collider::aabb(size, position)`: stores the size and the position with
`y` shifted up by half the height. -/
def Collider.aabb (size position : Vec3) : Collider :=
  { collider_type := ColliderType.aabb size
    position := ⟨position.x, position.y + size.y / 2, position.z⟩ }

/-- `Collider::capsule(start, end, radius, position)`. -/
def Collider.capsule (start endp : Vec3) (radius : ℝ) (position : Vec3) : Collider :=
  { collider_type := ColliderType.capsule ⟨start, endp, radius⟩
    position := position }

/-- `Collider::sphere(radius, position)`. -/
def Collider.sphere (radius : ℝ) (position : Vec3) : Collider :=
  Collider.capsule Vec3.zero Vec3.zero radius position

/-- `Collider::vertical_capsule(radius, height, position)` (the declared
parameter order of the source: radius first, then total height). -/
def Collider.vertical_capsule (radius height : ℝ) (position : Vec3) : Collider :=
  let height2 := if height < radius * 2 then radius * 2 else height
  let height3 := height2 - radius * 2
  Collider.capsule (radius • Vec3.unitY) (radius • Vec3.unitY + height3 • Vec3.unitY) radius
    ⟨position.x, position.y + radius, position.z⟩

/-- `Collider::hull(vertices, position)`. -/
def Collider.hullC (vs : List Vec3) (position : Vec3) : Collider :=
  { collider_type := ColliderType.hull (Hull.new vs), position := position }

/-- The world-space `y` coordinate of the bottom of a capsule collider's
lower hemisphere (the capsule's lowest point for a vertical capsule); `0` for
other shapes. -/
def capsuleBottomY (c : Collider) : ℝ :=
  match c.collider_type with
  | ColliderType.capsule caps =>
      c.position.y + min caps.start.y caps.endp.y - caps.radius
  | _ => 0

/-- The length of a capsule collider's core segment; `0` for other shapes. -/
def capsuleSegmentLength (c : Collider) : ℝ :=
  match c.collider_type with
  | ColliderType.capsule caps => Vec3.length (caps.endp - caps.start)
  | _ => 0

/-- `check_collision_aabb`: axis-aligned box versus box. -/
def check_collision_aabb (a pa b pb : Vec3) : Option Collision :=
  let min_pos := pa - (1 / 2 : ℝ) • a
  let max_pos := pa + (1 / 2 : ℝ) • a
  let min_other := pb - (1 / 2 : ℝ) • b
  let max_other := pb + (1 / 2 : ℝ) • b
  if min_pos.x ≤ max_other.x ∧ max_pos.x ≥ min_other.x ∧
      min_pos.y ≤ max_other.y ∧ max_pos.y ≥ min_other.y ∧
      min_pos.z ≤ max_other.z ∧ max_pos.z ≥ min_other.z then
    let center_diff := pa - pb
    let combined_half := (1 / 2 : ℝ) • (a + b)
    let overlaps : Vec3 :=
      ⟨combined_half.x - |center_diff.x|, combined_half.y - |center_diff.y|,
        combined_half.z - |center_diff.z|⟩
    let min_overlap := overlaps.min_element
    let nd : Vec3 × ℝ :=
      if min_overlap = overlaps.x then (signum center_diff.x • Vec3.unitX, overlaps.x)
      else if min_overlap = overlaps.y then (signum center_diff.y • Vec3.unitY, overlaps.y)
      else (signum center_diff.z • Vec3.unitZ, overlaps.z)
    some ⟨(1 / 2 : ℝ) • (pa + pb), nd.1, nd.2⟩
  else none

/-- `closest_points_between_segments`: closest points between two finite
segments (Ericson-style, with epsilon fallbacks for degenerate and
near-parallel segments). -/
def closest_points_between_segments (start endp other_start other_endp : Vec3) :
    Vec3 × Vec3 :=
  let segment := endp - start
  let other_segment := other_endp - other_start
  let start_diff := start - other_start
  let length_sq := Vec3.dot segment segment
  let other_length_sq := Vec3.dot other_segment other_segment
  if length_sq ≤ EPS ∧ other_length_sq ≤ EPS then (start, other_start)
  else
    let tt : ℝ × ℝ :=
      if length_sq ≤ EPS then
        (0, clampR (Vec3.dot other_segment start_diff / other_length_sq) 0 1)
      else
        let segment_to_other := Vec3.dot segment start_diff
        if other_length_sq ≤ EPS then
          (clampR (-segment_to_other / length_sq) 0 1, 0)
        else
          let seg_dot := Vec3.dot segment other_segment
          let denom := length_sq * other_length_sq - seg_dot * seg_dot
          let st0 : ℝ :=
            if |denom| > EPS then
              clampR ((seg_dot * Vec3.dot other_segment start_diff -
                segment_to_other * other_length_sq) / denom) 0 1
            else 0
          let proj_on_seg2 := seg_dot * st0 + Vec3.dot other_segment start_diff
          if proj_on_seg2 < 0 then
            (clampR (-segment_to_other / length_sq) 0 1, 0)
          else if proj_on_seg2 > other_length_sq then
            (clampR ((seg_dot - segment_to_other) / length_sq) 0 1, 1)
          else (st0, proj_on_seg2 / other_length_sq)
    (start + tt.1 • segment, other_start + tt.2 • other_segment)

/-- `check_collision_capsule`: capsule versus capsule. -/
def check_collision_capsule (c1 : Capsule) (p1 : Vec3) (c2 : Capsule) (p2 : Vec3) :
    Option Collision :=
  let cp := closest_points_between_segments (c1.start + p1) (c1.endp + p1)
    (c2.start + p2) (c2.endp + p2)
  let offset := cp.1 - cp.2
  let distance := Vec3.length offset
  let combined_radius := c1.radius + c2.radius
  if distance < combined_radius then
    some ⟨(1 / 2 : ℝ) • (cp.1 + cp.2),
      if distance > EPS then Vec3.normalize offset else Vec3.unitY,
      combined_radius - distance⟩
  else none

/-- `closest_point_on_aabb`: componentwise clamp of a point into a box. -/
def closest_point_on_aabb (point bmin bmax : Vec3) : Vec3 :=
  ⟨clampR point.x bmin.x bmax.x, clampR point.y bmin.y bmax.y, clampR point.z bmin.z bmax.z⟩

/-- One iteration of the axis loop of `closest_point_capsule_aabb`: `c`/`d`
are the segment start and direction on this axis, `lo`/`hi` the box slab;
the state is (nearest point so far, smallest distance so far, `none` being
the `f32::INFINITY` initialiser). -/
def cpcaAxis (cs seg bmin bmax : Vec3) (c d lo hi : ℝ) (st : Vec3 × Option ℝ) :
    Vec3 × Option ℝ :=
  if |d| < EPS then st
  else
    let go : ℝ → Vec3 × Option ℝ := fun t =>
      let sp := cs + clampR t 0 1 • seg
      let bp := closest_point_on_aabb sp bmin bmax
      let dist := Vec3.length (sp - bp)
      match st.2 with
      | none => (sp, some dist)
      | some best => if dist < best then (sp, some dist) else st
    if c < lo then go ((lo - c) / d)
    else if c > hi then go ((hi - c) / d)
    else st

/-- `closest_point_capsule_aabb`: the point on the capsule's segment closest
to the box, by per-axis slab clamping (the `for axis in 0..3` loop unrolled
over the x, y, z components). -/
def closest_point_capsule_aabb (cs ce bmin bmax : Vec3) : Vec3 :=
  let seg := ce - cs
  if Vec3.length seg = 0 then closest_point_on_aabb cs bmin bmax
  else
    (cpcaAxis cs seg bmin bmax cs.z seg.z bmin.z bmax.z
      (cpcaAxis cs seg bmin bmax cs.y seg.y bmin.y bmax.y
        (cpcaAxis cs seg bmin bmax cs.x seg.x bmin.x bmax.x (cs, none)))).1

/-- The face-selection chain of `check_collision_aabb_capsule`: the signed
axis unit vector of the smallest of the three penetrations `dx`, `dy`, `dz`
of the box point `lcl` (relative to the box center); on the `dx = dy` tie
the `Y` (or `Z`) axis wins, `X` winning only when strictly smallest. -/
def leastPenetrationAxisNormal (lcl : Vec3) (dx dy dz : ℝ) : Vec3 :=
  if dx < dy ∧ dx < dz then ⟨signum lcl.x, 0, 0⟩
  else if dy < dz then ⟨0, signum lcl.y, 0⟩
  else ⟨0, 0, signum lcl.z⟩

/-- `check_collision_aabb_capsule`: box (self) versus capsule (other). -/
def check_collision_aabb_capsule (a pa : Vec3) (caps : Capsule) (pc : Vec3) :
    Option Collision :=
  let aabb_min := pa - (1 / 2 : ℝ) • a
  let aabb_max := pa + (1 / 2 : ℝ) • a
  let cpc := closest_point_capsule_aabb (caps.start + pc) (caps.endp + pc) aabb_min aabb_max
  let cpa := closest_point_on_aabb cpc aabb_min aabb_max
  let distance := Vec3.length (cpc - cpa)
  if distance ≤ caps.radius then
    let depth := caps.radius - distance
    let center := (1 / 2 : ℝ) • (aabb_min + aabb_max)
    let half := (1 / 2 : ℝ) • (aabb_max - aabb_min)
    let lcl := cpa - center
    let normal := leastPenetrationAxisNormal lcl (half.x - |lcl.x|) (half.y - |lcl.y|)
      (half.z - |lcl.z|)
    some ⟨cpc + depth • normal, normal, depth⟩
  else none

/-- `check_collision_capsule_aabb`: capsule (self) versus box (other). -/
def check_collision_capsule_aabb (caps : Capsule) (pc : Vec3) (b pb : Vec3) :
    Option Collision :=
  let aabb_min := pb - (1 / 2 : ℝ) • b
  let aabb_max := pb + (1 / 2 : ℝ) • b
  let cpc := closest_point_capsule_aabb (caps.start + pc) (caps.endp + pc) aabb_min aabb_max
  let cpa := closest_point_on_aabb cpc aabb_min aabb_max
  let distance := Vec3.length (cpc - cpa)
  if distance ≤ caps.radius then
    let depth := caps.radius - distance
    let normal := Vec3.normalize (cpc - cpa)
    some ⟨cpa + depth • normal, normal, depth⟩
  else none

/-- The world-space vertices of a box, in the order of
`check_collision_aabb_hull`. -/
def aabbVertices (a pa : Vec3) : List Vec3 :=
  let half := (1 / 2 : ℝ) • a
  [pa + ⟨-half.x, -half.y, -half.z⟩, pa + ⟨half.x, -half.y, -half.z⟩,
    pa + ⟨half.x, -half.y, half.z⟩, pa + ⟨-half.x, -half.y, half.z⟩,
    pa + ⟨-half.x, half.y, -half.z⟩, pa + ⟨half.x, half.y, -half.z⟩,
    pa + ⟨half.x, half.y, half.z⟩, pa + ⟨-half.x, half.y, half.z⟩]

/-- Hull vertices translated into world space. -/
def hullWorldVertices (h : Hull) (ph : Vec3) : List Vec3 :=
  h.vertices.map (fun v => v + ph)

/-- The `project` helper of `check_collision_aabb_hull`: (min, max) of the
projections of a vertex list onto an axis. -/
def project (vs : List Vec3) (axis : Vec3) : ℝ × ℝ :=
  let h := Vec3.dot (vget vs 0) axis
  (vs.drop 1).foldl
    (fun mm v =>
      let p := Vec3.dot v axis
      (if p < mm.1 then p else mm.1, if p > mm.2 then p else mm.2))
    (h, h)

/-- The 1D projection overlap of two vertex sets on one axis. -/
def overlapOn (av hv : List Vec3) (axis : Vec3) : ℝ :=
  min (project av axis).2 (project hv axis).2 - max (project av axis).1 (project hv axis).1

/-- The full list of axes tested by `check_collision_aabb_hull`: the three
box principal axes, then every hull face normal. -/
def satAxes (h : Hull) : List Vec3 :=
  [Vec3.unitX, Vec3.unitY, Vec3.unitZ] ++ h.faces.map Face.normal

/-- The SAT loop of `check_collision_aabb_hull` after the first axis has
been installed as the running minimum: early-return `none` on a
non-positive overlap, otherwise keep the axis of strictly smallest
overlap. -/
def satGo (av hv : List Vec3) : List Vec3 → ℝ × Vec3 → Option (ℝ × Vec3)
  | [], st => some st
  | ax :: rest, st =>
      let ov := overlapOn av hv ax
      if ov ≤ 0 then none
      else if ov < st.1 then satGo av hv rest (ov, ax) else satGo av hv rest st

/-- `check_collision_aabb_hull`: SAT over the box axes plus the hull face
normals.  The `f32` code initialises `min_penetration` to `+INFINITY`, so
the first tested axis (`Vec3::X`) always installs itself as the running
minimum unless it separates; the fold starts from that first axis. -/
def check_collision_aabb_hull (a pa : Vec3) (h : Hull) (ph : Vec3) : Option Collision :=
  let hv := hullWorldVertices h ph
  let av := aabbVertices a pa
  let ovX := overlapOn av hv Vec3.unitX
  if ovX ≤ 0 then none
  else
    match satGo av hv (Vec3.unitY :: Vec3.unitZ :: h.faces.map Face.normal)
        (ovX, Vec3.unitX) with
    | none => none
    | some st =>
        let center_diff := pa - ph
        let n2 := if Vec3.dot st.2 center_diff < 0 then -st.2 else st.2
        some ⟨(1 / 2 : ℝ) • (pa + ph), Vec3.normalize n2, st.1⟩

/-- `closest_point_on_triangle`: region-based closest point on a triangle. -/
def closest_point_on_triangle (point vertex_a vertex_b vertex_c : Vec3) : Vec3 :=
  let edge_ab := vertex_b - vertex_a
  let edge_ac := vertex_c - vertex_a
  let edge_bc := vertex_c - vertex_b
  let vector_to_a := point - vertex_a
  let vector_to_b := point - vertex_b
  let vector_to_c := point - vertex_c
  let dot_ab_ap := Vec3.dot edge_ab vector_to_a
  let dot_ac_ap := Vec3.dot edge_ac vector_to_a
  let dot_ab_bp := Vec3.dot edge_ab vector_to_b
  let dot_ac_bp := Vec3.dot edge_ac vector_to_b
  let dot_ab_cp := Vec3.dot edge_ab vector_to_c
  let dot_ac_cp := Vec3.dot edge_ac vector_to_c
  if dot_ab_ap ≤ 0 ∧ dot_ac_ap ≤ 0 then vertex_a
  else if dot_ab_bp ≥ 0 ∧ dot_ac_bp ≤ dot_ab_bp then vertex_b
  else if dot_ac_cp ≥ 0 ∧ dot_ab_cp ≤ dot_ac_cp then vertex_c
  else
    let edge_region_ab := dot_ab_ap * dot_ac_bp - dot_ab_bp * dot_ac_ap
    if edge_region_ab ≤ 0 ∧ dot_ab_ap ≥ 0 ∧ dot_ab_bp ≤ 0 then
      vertex_a + (dot_ab_ap / (dot_ab_ap - dot_ab_bp)) • edge_ab
    else
      let edge_region_ac := dot_ab_cp * dot_ac_ap - dot_ab_ap * dot_ac_cp
      if edge_region_ac ≤ 0 ∧ dot_ac_ap ≥ 0 ∧ dot_ac_cp ≤ 0 then
        vertex_a + (dot_ac_ap / (dot_ac_ap - dot_ac_cp)) • edge_ac
      else
        let edge_region_bc := dot_ab_bp * dot_ac_cp - dot_ab_cp * dot_ac_bp
        if edge_region_bc ≤ 0 ∧ dot_ac_bp - dot_ab_bp ≥ 0 ∧ dot_ab_cp - dot_ac_cp ≥ 0 then
          vertex_b +
            ((dot_ac_bp - dot_ab_bp) / ((dot_ac_bp - dot_ab_bp) + (dot_ab_cp - dot_ac_cp))) •
              edge_bc
        else
          let sum_of_regions := edge_region_ab + edge_region_ac + edge_region_bc
          let v := edge_region_ac / sum_of_regions
          let w := edge_region_ab / sum_of_regions
          vertex_a + v • edge_ab + w • edge_ac

/-- "Less than the running minimum", where `none` is the `f32::INFINITY`
initialiser (every finite value is below it). -/
def ltInf (d : ℝ) : Option ℝ → Prop
  | none => True
  | some m => d < m

/-- One face iteration of `check_collision_capsule_hull`'s loop; the state is
(closest point, min squared distance so far, collision normal). -/
def cchFace (seg_start seg_end : Vec3) (hv : List Vec3) (st : Vec3 × Option ℝ × Vec3)
    (face : Face) : Vec3 × Option ℝ × Vec3 :=
  let v0 := vget hv (face.vertices.getD 0 0)
  let v1 := vget hv (face.vertices.getD 1 0)
  let v2 := vget hv (face.vertices.getD 2 0)
  let plane_normal := face.normal
  let start_dist := Vec3.dot (seg_start - v0) plane_normal
  let end_dist := Vec3.dot (seg_end - v0) plane_normal
  let t := start_dist / (start_dist - end_dist)
  let point_on_segment := seg_start + clampR t 0 1 • (seg_end - seg_start)
  let point_on_triangle := closest_point_on_triangle point_on_segment v0 v1 v2
  let delta := point_on_segment - point_on_triangle
  let dist_sq := Vec3.length_squared delta
  if ltInf dist_sq st.2.1 then
    (point_on_segment, some dist_sq,
      if dist_sq > EPS then Vec3.normalize delta else plane_normal)
  else st

/-- `check_collision_capsule_hull`: capsule (self) versus hull (other). -/
def check_collision_capsule_hull (caps : Capsule) (pc : Vec3) (h : Hull) (ph : Vec3) :
    Option Collision :=
  let seg_start := caps.start + pc
  let seg_end := caps.endp + pc
  let hv := hullWorldVertices h ph
  let st := h.faces.foldl (cchFace seg_start seg_end hv) (seg_start, none, Vec3.zero)
  match st.2.1 with
  | none => none
  | some min_distance_sq =>
      if min_distance_sq < caps.radius * caps.radius then
        let distance := Real.sqrt min_distance_sq
        let depth := caps.radius - distance
        some ⟨st.1 - (depth * (1 / 2)) • st.2.2, st.2.2, depth⟩
      else none

/-- `Vec::dedup` (Rust): remove consecutive duplicate elements. -/
def dedupConsec : List Vec3 → List Vec3
  | [] => []
  | [a] => [a]
  | a :: b :: rest =>
      if a = b then dedupConsec (a :: rest) else a :: dedupConsec (b :: rest)
termination_by l => l.length

/-- `Collider::get_largest_radius`: the bounding-sphere radius used by the
rough broad phase (half-diagonal for a box, half segment length plus radius
for a capsule, farthest face vertex for a hull). -/
def get_largest_radius (c : Collider) : ℝ :=
  match c.collider_type with
  | ColliderType.aabb a => Vec3.length ((1 / 2 : ℝ) • a)
  | ColliderType.capsule caps => Vec3.length (caps.start - caps.endp) / 2 + caps.radius
  | ColliderType.hull h =>
      let points :=
        (h.faces.map (fun f => f.vertices.map (fun i => vget h.vertices i))).flatten
      (dedupConsec points).foldl
        (fun r p => if Vec3.length p > r then Vec3.length p else r) 0

/-- `Collider::check_collision_rough`: bounding-sphere rejection centered at
the colliders' placements. -/
def check_collision_rough (c1 c2 : Collider) : Option Collision :=
  let dist := Vec3.length (c1.position - c2.position)
  if dist < get_largest_radius c1 + get_largest_radius c2 then
    some ⟨(1 / 2 : ℝ) • (c1.position + c2.position),
      -(Vec3.normalize (c1.position - c2.position)),
      dist - get_largest_radius c1 - get_largest_radius c2⟩
  else none

/-- The observable outcome of `Collider::check_collision`: either a normal
return (`res`) or the `unreachable!` panic of the hull-as-source arm. -/
inductive CheckResult where
  | res : Option Collision → CheckResult
  | panicked : CheckResult

/-- The narrow-phase dispatch of `Collider::check_collision` (the `match`
over the shape pair, without the preceding rough rejection). -/
def narrow_phase (c1 c2 : Collider) : CheckResult :=
  match c1.collider_type, c2.collider_type with
  | ColliderType.aabb a, ColliderType.aabb b =>
      CheckResult.res (check_collision_aabb a c1.position b c2.position)
  | ColliderType.capsule x, ColliderType.capsule y =>
      CheckResult.res (check_collision_capsule x c1.position y c2.position)
  | ColliderType.aabb a, ColliderType.capsule y =>
      CheckResult.res (check_collision_aabb_capsule a c1.position y c2.position)
  | ColliderType.capsule x, ColliderType.aabb b =>
      CheckResult.res (check_collision_capsule_aabb x c1.position b c2.position)
  | ColliderType.aabb _, ColliderType.hull _ => CheckResult.res none
  | ColliderType.capsule x, ColliderType.hull h =>
      CheckResult.res (check_collision_capsule_hull x c1.position h c2.position)
  | ColliderType.hull _, _ => CheckResult.panicked

/-- `Collider::check_collision`: rough rejection (the `?` on
`check_collision_rough`) followed by the shape-pair dispatch, whose
hull-as-source arm is `unreachable!`. -/
def Collider.check_collision (c1 c2 : Collider) : CheckResult :=
  match check_collision_rough c1 c2 with
  | none => CheckResult.res none
  | some _ => narrow_phase c1 c2

/-- `PhysicsData` (src/game/physics/components.rs): the per-entity kinematic
state present under `src/`.  `time_since_grounded` is an `f32` that is
initialised to `f32::INFINITY`, modelled as `EReal`. -/
inductive PhysicsData where
  | static : PhysicsData
  | Kinematic : Vec3 → Bool → EReal → PhysicsData

/-- `PhysicsData::kinematic(displacement)`: grounded starts `false` and
`time_since_grounded` starts at `+infinity`. -/
def PhysicsData.kinematic (displacement : Vec3) : PhysicsData :=
  PhysicsData.Kinematic displacement false ⊤

/-- Modelled from the spec: the `Kinematic` variant of the complete solver
(spec §3) carries a fourth field `last_grounded_height` that is referenced
by callers in `src/game/character/player.rs` but missing from the
`PhysicsData` declaration under `src/` (whose `movement.rs` is a stale
variant that does not name the declared fields). -/
structure SpecKinematicState where
  displacement : Vec3
  grounded : Bool
  time_since_grounded : EReal
  last_grounded_height : ℝ

/-- Modelled from the spec: the solver's per-tick ground-state update (spec
§4.3 step 5), absent from `src/`: `grounded` = whether any ground-like
contact (`normal.y > 0.7`) was found this tick; on grounded ticks reset
`time_since_grounded` to 0 and record `last_grounded_height` = current world
`y`; otherwise accumulate `time_since_grounded += dt`. -/
def groundStateUpdate (st : SpecKinematicState) (contacts : List Collision) (dt : ℝ)
    (worldY : ℝ) : SpecKinematicState :=
  if ∃ c ∈ contacts, c.normal.y > (7 / 10 : ℝ) then
    { st with grounded := true, time_since_grounded := 0, last_grounded_height := worldY }
  else
    { st with grounded := false, time_since_grounded := st.time_since_grounded + (dt : EReal) }

/-- The pair of closest points computed inside `check_collision_capsule`
(first component on the first capsule). -/
def capsuleClosestPair (c1 : Capsule) (p1 : Vec3) (c2 : Capsule) (p2 : Vec3) : Vec3 × Vec3 :=
  closest_points_between_segments (c1.start + p1) (c1.endp + p1) (c2.start + p2) (c2.endp + p2)

/-- The (capsule-segment point, box-surface point) pair computed inside
`check_collision_capsule_aabb` / `check_collision_aabb_capsule` for a
capsule at `pc` against a box `b` at `pb`. -/
def capsuleBoxPoints (caps : Capsule) (pc b pb : Vec3) : Vec3 × Vec3 :=
  let bmin := pb - (1 / 2 : ℝ) • b
  let bmax := pb + (1 / 2 : ℝ) • b
  let cpc := closest_point_capsule_aabb (caps.start + pc) (caps.endp + pc) bmin bmax
  (cpc, closest_point_on_aabb cpc bmin bmax)

/-- The Box-Capsule contact-normal tie-break rule exactly as the spec words
it: the axis of least penetration, ties broken preferring X, then Y,
then Z. -/
def specNormalTiesPreferX (lcl : Vec3) (dx dy dz : ℝ) : Vec3 :=
  if dx ≤ dy ∧ dx ≤ dz then ⟨signum lcl.x, 0, 0⟩
  else if dy ≤ dz then ⟨0, signum lcl.y, 0⟩
  else ⟨0, 0, signum lcl.z⟩

/-- The unit-cube hull vertex list of the repository's own unit test (the
8 axis-aligned corners, lower ring then upper ring). -/
def cubeVerts : List Vec3 :=
  [⟨0, 0, 0⟩, ⟨1, 0, 0⟩, ⟨1, 0, 1⟩, ⟨0, 0, 1⟩, ⟨0, 1, 0⟩, ⟨0, 1, 1⟩, ⟨1, 1, 1⟩, ⟨1, 1, 0⟩]

/-- The number of faces of a face list whose normal equals `u`. -/
def countNormal (fs : List Face) (u : Vec3) : ℕ :=
  (fs.map Face.normal).foldl (fun n v => if v = u then n + 1 else n) 0

/-- The (segment_t, other_segment_t) parameter pair computed by
`closest_points_between_segments` in its both-non-degenerate branch,
abstracted over the five scalar products: `A` = segment·segment,
`E` = other·other, `B` = segment·other, `C` = segment·start_diff,
`F` = other·start_diff. -/
def segParams (A E B C F : ℝ) : ℝ × ℝ :=
  let denom := A * E - B * B
  let st0 := if |denom| > EPS then clampR ((B * F - C * E) / denom) 0 1 else 0
  let proj := B * st0 + F
  if proj < 0 then (clampR (-C / A) 0 1, 0)
  else if proj > E then (clampR ((B - C) / A) 0 1, 1)
  else (st0, proj / E)

end

/-! ## Theorems -/

noncomputable section

namespace Vec3

@[ext] theorem ext {a b : Vec3} (hx : a.x = b.x) (hy : a.y = b.y) (hz : a.z = b.z) :
    a = b := by
  cases a; cases b; simp_all

@[simp] theorem add_def (a b : Vec3) : a + b = ⟨a.x + b.x, a.y + b.y, a.z + b.z⟩ := rfl

@[simp] theorem sub_def (a b : Vec3) : a - b = ⟨a.x - b.x, a.y - b.y, a.z - b.z⟩ := rfl

@[simp] theorem neg_def (a : Vec3) : -a = ⟨-a.x, -a.y, -a.z⟩ := rfl

@[simp] theorem smul_def (s : ℝ) (a : Vec3) : s • a = ⟨s * a.x, s * a.y, s * a.z⟩ := rfl

end Vec3

theorem sqrt_eval {a b : ℝ} (hb : 0 ≤ b) (h : b ^ 2 = a) : Real.sqrt a = b := by
  subst h
  exact Real.sqrt_sq hb

/-- C10: `Collider::aabb(size, position)` stores the input position with its
`y` coordinate increased by `size.y / 2` and `x`, `z` unchanged, so the box
(whose placement is its center) occupies the vertical interval from
`position.y` to `position.y + size.y`. -/
theorem aabb_constructor_bottom_center (size p : Vec3) :
    (Collider.aabb size p).position = ⟨p.x, p.y + size.y / 2, p.z⟩ ∧
    (Collider.aabb size p).position.y - size.y / 2 = p.y ∧
    (Collider.aabb size p).position.y + size.y / 2 = p.y + size.y := by
  refine ⟨rfl, ?_, ?_⟩
  · simp [Collider.aabb]
  · simp [Collider.aabb]
    ring

/-- C7 counterexample: `vertical_capsule(radius := 1, height := 4)` placed at
the origin has its lowest point at world `y = 1 = radius`, not at the input
position's `y = 0`: the placement is offset up by `radius` even though the
local segment already starts at height `radius`. -/
theorem vertical_capsule_bottom_counterexample :
    capsuleBottomY (Collider.vertical_capsule 1 4 ⟨0, 0, 0⟩) = 1 ∧ (1 : ℝ) ≠ 0 := by
  constructor
  · simp [Collider.vertical_capsule, Collider.capsule, capsuleBottomY, Vec3.unitY]
    norm_num
  · norm_num

/-- C7 (amended): `vertical_capsule(radius, height, position)` derives the
core segment length as `max(height, 2·radius) − 2·radius`, and the lowest
point of the capsule lies at `position.y + radius` (one `radius` above the
input position, because the `radius` placement offset is applied on top of a
local segment that already starts at height `radius`). -/
theorem vertical_capsule_spec (radius height : ℝ) (p : Vec3) :
    capsuleSegmentLength (Collider.vertical_capsule radius height p)
      = max height (radius * 2) - radius * 2 ∧
    capsuleBottomY (Collider.vertical_capsule radius height p) = p.y + radius := by
  have hmax : (if height < radius * 2 then radius * 2 else height) = max height (radius * 2) := by
    rcases le_or_lt (radius * 2) height with h | h
    · rw [if_neg (not_lt.mpr h), max_eq_left h]
    · rw [if_pos h, max_eq_right h.le]
  have hnn : 0 ≤ max height (radius * 2) - radius * 2 := by
    have := le_max_right height (radius * 2)
    linarith
  constructor
  · simp only [Collider.vertical_capsule, Collider.capsule, capsuleSegmentLength,
      Vec3.unitY, Vec3.smul_def, Vec3.add_def, Vec3.sub_def, hmax]
    rw [Vec3.length, Vec3.dot]
    rw [sqrt_eval hnn]
    ring
  · simp only [Collider.vertical_capsule, Collider.capsule, capsuleBottomY,
      Vec3.unitY, Vec3.smul_def, Vec3.add_def, hmax]
    have hmin : min (radius * 1) (radius * 1 + (max height (radius * 2) - radius * 2) * 1)
        = radius := by
      rw [min_eq_left (by linarith)]
      ring
    rw [hmin]
    ring

theorem length_vec_nonneg (v : Vec3) : 0 ≤ Vec3.length v := Real.sqrt_nonneg _

theorem length_zero_vec : Vec3.length ⟨0, 0, 0⟩ = 0 := by
  simp [Vec3.length, Vec3.dot]

theorem radius_fold_nonneg (l : List Vec3) (r : ℝ) (hr : 0 ≤ r) :
    0 ≤ l.foldl (fun r p => if Vec3.length p > r then Vec3.length p else r) r := by
  induction l generalizing r with
  | nil => exact hr
  | cons p rest ih =>
      simp only [List.foldl_cons]
      refine ih _ ?_
      split_ifs
      · exact length_vec_nonneg p
      · exact hr

theorem get_largest_radius_hull_nonneg (h : Hull) (p : Vec3) :
    0 ≤ get_largest_radius ⟨ColliderType.hull h, p⟩ := by
  simp only [get_largest_radius]
  exact radius_fold_nonneg _ 0 le_rfl

/-- C4: `time_since_grounded` is initialised to `+infinity` at creation
(`PhysicsData::kinematic`, from `src/`); on every solver tick with a
ground-like contact (`normal.y > 0.7`) the stored state is updated with
`grounded = true`, `time_since_grounded = 0` and `last_grounded_height` set
to the entity's current world `y`; on every tick with no ground-like contact
`time_since_grounded` grows by the frame delta time (ground-state update
modelled from the spec, it being absent from `src/`). -/
theorem ground_state_update_spec :
    (∀ d : Vec3, PhysicsData.kinematic d = PhysicsData.Kinematic d false ⊤) ∧
    (∀ (st : SpecKinematicState) (contacts : List Collision) (dt worldY : ℝ),
      (∃ c ∈ contacts, c.normal.y > (7 / 10 : ℝ)) →
      groundStateUpdate st contacts dt worldY =
        { st with grounded := true, time_since_grounded := 0, last_grounded_height := worldY }) ∧
    (∀ (st : SpecKinematicState) (contacts : List Collision) (dt worldY : ℝ),
      (¬ ∃ c ∈ contacts, c.normal.y > (7 / 10 : ℝ)) →
      (groundStateUpdate st contacts dt worldY).time_since_grounded =
          st.time_since_grounded + (dt : EReal) ∧
        (groundStateUpdate st contacts dt worldY).grounded = false) := by
  refine ⟨fun d => rfl, ?_, ?_⟩
  · intro st contacts dt worldY hg
    rw [groundStateUpdate, if_pos hg]
  · intro st contacts dt worldY hg
    rw [groundStateUpdate, if_neg hg]
    exact ⟨rfl, rfl⟩

/-- Witness for C4: one grounded tick at a concrete state with a single
contact whose normal is straight up. -/
theorem ground_state_update_spec_witness :
    groundStateUpdate ⟨Vec3.zero, false, ⊤, 0⟩ [⟨Vec3.zero, Vec3.unitY, 0⟩] 1 5 =
      { (⟨Vec3.zero, false, ⊤, 0⟩ : SpecKinematicState) with grounded := true, time_since_grounded := 0, last_grounded_height := 5 } :=
  ground_state_update_spec.2.1 _ _ 1 5
    ⟨⟨Vec3.zero, Vec3.unitY, 0⟩, by simp, by norm_num [Vec3.unitY]⟩

/-- C1 counterexample: a pair whose first (self) shape is a convex hull does
not return "no collision" — a hull collider at the origin against a
unit sphere at the origin passes the rough broad phase and then hits the
`unreachable!` panic of the hull-as-source dispatch arm. -/
theorem hull_source_panic_counterexample :
    Collider.check_collision
        (Collider.hullC [⟨0, 0, 0⟩, ⟨1, 0, 0⟩, ⟨1, 0, 1⟩, ⟨0, 0, 1⟩, ⟨0, 1, 0⟩, ⟨0, 1, 1⟩,
          ⟨1, 1, 1⟩, ⟨1, 1, 0⟩] ⟨0, 0, 0⟩)
        (Collider.sphere 1 ⟨0, 0, 0⟩) =
      CheckResult.panicked := by
  rw [Collider.check_collision]
  have hrough :
      check_collision_rough
          (Collider.hullC [⟨0, 0, 0⟩, ⟨1, 0, 0⟩, ⟨1, 0, 1⟩, ⟨0, 0, 1⟩, ⟨0, 1, 0⟩, ⟨0, 1, 1⟩,
            ⟨1, 1, 1⟩, ⟨1, 1, 0⟩] ⟨0, 0, 0⟩)
          (Collider.sphere 1 ⟨0, 0, 0⟩) ≠ none := by
    rw [check_collision_rough]
    have hdist :
        Vec3.length ((⟨0, 0, 0⟩ : Vec3) - (⟨0, 0, 0⟩ : Vec3)) = 0 := by
      simp [Vec3.length, Vec3.dot]
    have hhull :
        0 ≤ get_largest_radius (Collider.hullC [⟨0, 0, 0⟩, ⟨1, 0, 0⟩, ⟨1, 0, 1⟩, ⟨0, 0, 1⟩,
          ⟨0, 1, 0⟩, ⟨0, 1, 1⟩, ⟨1, 1, 1⟩, ⟨1, 1, 0⟩] ⟨0, 0, 0⟩) :=
      get_largest_radius_hull_nonneg _ _
    have hsphere :
        get_largest_radius (Collider.sphere 1 ⟨0, 0, 0⟩) = 1 := by
      simp [Collider.sphere, Collider.capsule, get_largest_radius, Vec3.zero,
        Vec3.length, Vec3.dot]
    rw [if_pos]
    · exact Option.some_ne_none _
    · show Vec3.length _ < _
      rw [hsphere]
      calc Vec3.length ((Collider.hullC _ ⟨0, 0, 0⟩).position -
            (Collider.sphere 1 ⟨0, 0, 0⟩).position) = 0 := hdist
        _ < _ := by linarith
  cases hcr : check_collision_rough
      (Collider.hullC [⟨0, 0, 0⟩, ⟨1, 0, 0⟩, ⟨1, 0, 1⟩, ⟨0, 0, 1⟩, ⟨0, 1, 0⟩, ⟨0, 1, 1⟩,
        ⟨1, 1, 1⟩, ⟨1, 1, 0⟩] ⟨0, 0, 0⟩)
      (Collider.sphere 1 ⟨0, 0, 0⟩) with
  | none => exact absurd hcr hrough
  | some c => rfl

/-- C1 (amended): the unimplemented Box–Hull pair returns "no collision"
(`None`) without failing; but a pair whose first (self) shape is a convex
hull (including Hull–Hull) panics via `unreachable!` whenever the rough
broad phase does not reject it, and returns "no collision" only when the
broad phase rejects. -/
theorem hull_source_dispatch (c1 c2 : Collider) :
    (∀ a h, c1.collider_type = ColliderType.aabb a → c2.collider_type = ColliderType.hull h →
      Collider.check_collision c1 c2 = CheckResult.res none) ∧
    (∀ h, c1.collider_type = ColliderType.hull h →
      ((check_collision_rough c1 c2).isSome →
        Collider.check_collision c1 c2 = CheckResult.panicked) ∧
      (check_collision_rough c1 c2 = none →
        Collider.check_collision c1 c2 = CheckResult.res none)) := by
  constructor
  · intro a h ha hh
    rw [Collider.check_collision]
    cases hcr : check_collision_rough c1 c2 with
    | none => rfl
    | some c => rw [narrow_phase, ha, hh]
  · intro h hh
    constructor
    · intro hsome
      rw [Collider.check_collision]
      cases hcr : check_collision_rough c1 c2 with
      | none => rw [hcr] at hsome; exact absurd hsome (by simp)
      | some c =>
          rw [narrow_phase, hh]
    · intro hnone
      rw [Collider.check_collision, hnone]

/-- Witness for C1's amended theorem: a concrete Box–Hull pair returns
"no collision". -/
theorem hull_source_dispatch_witness :
    Collider.check_collision (Collider.aabb ⟨1, 1, 1⟩ ⟨0, 0, 0⟩)
        (Collider.hullC [] ⟨2, 2, 2⟩) =
      CheckResult.res none :=
  (hull_source_dispatch _ _).1 ⟨1, 1, 1⟩ (Hull.new []) rfl rfl

/-- C2 (code-bug exhibit): the rough broad phase is load-bearing.  A capsule
whose segment extends from its anchor position to `(16,0,0)` against a unit
sphere at `(16,0,0)`: the two shapes overlap (the narrow phase reports a
depth-2 contact), but the broad phase centers the capsule's bounding sphere
at its anchor (not at the segment's midpoint), so the pair is rejected and
`check_collision` returns "no collision", contradicting the narrow-phase
result. -/
theorem broad_phase_rejects_colliding_pair :
    Collider.check_collision (Collider.capsule ⟨0, 0, 0⟩ ⟨16, 0, 0⟩ 1 ⟨0, 0, 0⟩)
        (Collider.sphere 1 ⟨16, 0, 0⟩) =
      CheckResult.res none ∧
    narrow_phase (Collider.capsule ⟨0, 0, 0⟩ ⟨16, 0, 0⟩ 1 ⟨0, 0, 0⟩)
        (Collider.sphere 1 ⟨16, 0, 0⟩) =
      CheckResult.res (some ⟨⟨16, 0, 0⟩, Vec3.unitY, 2⟩) := by
  have h256 : Real.sqrt 256 = 16 := sqrt_eval (by norm_num) (by norm_num)
  have h0 : Real.sqrt 0 = 0 := Real.sqrt_zero
  constructor
  · rw [Collider.check_collision]
    have hrough : check_collision_rough (Collider.capsule ⟨0, 0, 0⟩ ⟨16, 0, 0⟩ 1 ⟨0, 0, 0⟩)
        (Collider.sphere 1 ⟨16, 0, 0⟩) = none := by
      rw [check_collision_rough, if_neg]
      simp only [Collider.capsule, Collider.sphere, get_largest_radius, Vec3.zero,
        Vec3.sub_def, Vec3.length, Vec3.dot]
      norm_num [h256, h0]
    rw [hrough]
  · have hcp : closest_points_between_segments ⟨0, 0, 0⟩ ⟨16, 0, 0⟩ ⟨16, 0, 0⟩ ⟨16, 0, 0⟩
        = (⟨16, 0, 0⟩, ⟨16, 0, 0⟩) := by
      rw [closest_points_between_segments]
      norm_num [Vec3.dot, EPS, clampR]
    show CheckResult.res (check_collision_capsule ⟨⟨0, 0, 0⟩, ⟨16, 0, 0⟩, 1⟩ ⟨0, 0, 0⟩
        ⟨Vec3.zero, Vec3.zero, 1⟩ ⟨16, 0, 0⟩) = _
    have hcap : check_collision_capsule ⟨⟨0, 0, 0⟩, ⟨16, 0, 0⟩, 1⟩ ⟨0, 0, 0⟩
        ⟨Vec3.zero, Vec3.zero, 1⟩ ⟨16, 0, 0⟩ = some ⟨⟨16, 0, 0⟩, Vec3.unitY, 2⟩ := by
      rw [check_collision_capsule]
      simp only [Vec3.add_def, Vec3.zero]
      norm_num
      rw [hcp]
      norm_num [Vec3.sub_def, Vec3.length, Vec3.dot, EPS, Vec3.smul_def, Vec3.add_def, h0]
    rw [hcap]

theorem dot_self_nonneg (v : Vec3) : 0 ≤ Vec3.dot v v := by
  simp only [Vec3.dot]
  nlinarith [mul_self_nonneg v.x, mul_self_nonneg v.y, mul_self_nonneg v.z]

theorem length_smul_eval (s : ℝ) (v : Vec3) :
    Vec3.length (s • v) = |s| * Vec3.length v := by
  simp only [Vec3.length, Vec3.smul_def, Vec3.dot]
  rw [show s * v.x * (s * v.x) + s * v.y * (s * v.y) + s * v.z * (s * v.z)
      = s ^ 2 * (v.x * v.x + v.y * v.y + v.z * v.z) from by ring]
  rw [Real.sqrt_mul (sq_nonneg s), Real.sqrt_sq_eq_abs]

theorem length_normalize {v : Vec3} (h : Vec3.length v ≠ 0) :
    Vec3.length (Vec3.normalize v) = 1 := by
  rw [Vec3.normalize, length_smul_eval, abs_inv,
    abs_of_nonneg (length_vec_nonneg v), inv_mul_cancel₀ h]

theorem dot_normalize_self_nonneg (v : Vec3) : 0 ≤ Vec3.dot (Vec3.normalize v) v := by
  simp only [Vec3.normalize, Vec3.smul_def, Vec3.dot]
  have h1 : 0 ≤ (Vec3.length v)⁻¹ := inv_nonneg.mpr (length_vec_nonneg v)
  have h2 : 0 ≤ v.x * v.x + v.y * v.y + v.z * v.z := by
    nlinarith [mul_self_nonneg v.x, mul_self_nonneg v.y, mul_self_nonneg v.z]
  nlinarith

theorem signum_mul_self_nonneg (x : ℝ) : 0 ≤ signum x * x := by
  rw [signum]
  split_ifs with h
  · nlinarith
  · nlinarith [not_lt.mp h]

theorem abs_signum (x : ℝ) : |signum x| = 1 := by
  rw [signum]
  split_ifs <;> simp

theorem length_signum_smul_unit (s : ℝ) (u : Vec3) (hu : Vec3.dot u u = 1) :
    Vec3.length (signum s • u) = 1 := by
  rw [length_smul_eval, abs_signum, one_mul, Vec3.length, hu, Real.sqrt_one]

theorem dot_smul_left (s : ℝ) (u w : Vec3) : Vec3.dot (s • u) w = s * Vec3.dot u w := by
  simp only [Vec3.dot, Vec3.smul_def]
  ring

theorem dot_unitX (w : Vec3) : Vec3.dot Vec3.unitX w = w.x := by
  simp [Vec3.dot, Vec3.unitX]

theorem dot_unitY (w : Vec3) : Vec3.dot Vec3.unitY w = w.y := by
  simp [Vec3.dot, Vec3.unitY]

theorem dot_unitZ (w : Vec3) : Vec3.dot Vec3.unitZ w = w.z := by
  simp [Vec3.dot, Vec3.unitZ]

theorem length_axisX (s : ℝ) : Vec3.length ⟨s, 0, 0⟩ = |s| := by
  simp only [Vec3.length, Vec3.dot]
  rw [show s * s + 0 * 0 + 0 * 0 = s ^ 2 from by ring, Real.sqrt_sq_eq_abs]

theorem length_axisY (s : ℝ) : Vec3.length ⟨0, s, 0⟩ = |s| := by
  simp only [Vec3.length, Vec3.dot]
  rw [show 0 * 0 + s * s + 0 * 0 = s ^ 2 from by ring, Real.sqrt_sq_eq_abs]

theorem length_axisZ (s : ℝ) : Vec3.length ⟨0, 0, s⟩ = |s| := by
  simp only [Vec3.length, Vec3.dot]
  rw [show 0 * 0 + 0 * 0 + s * s = s ^ 2 from by ring, Real.sqrt_sq_eq_abs]

theorem dot_axisX (s : ℝ) (w : Vec3) : Vec3.dot ⟨s, 0, 0⟩ w = s * w.x := by
  simp [Vec3.dot]

theorem dot_axisY (s : ℝ) (w : Vec3) : Vec3.dot ⟨0, s, 0⟩ w = s * w.y := by
  simp [Vec3.dot]

theorem dot_axisZ (s : ℝ) (w : Vec3) : Vec3.dot ⟨0, 0, s⟩ w = s * w.z := by
  simp [Vec3.dot]

/-- C5 (amended): every collision normal returned by the implemented
Box-Box, Capsule-Capsule and Capsule-Box tests is unit length in the
non-degenerate branches, but points from shape B toward shape A (not A
toward B): for Box-Box it is the signed unit axis aligned with A's center
minus B's center; for Capsule-Capsule (when the closest points are more than
epsilon apart) it points from B's closest point toward A's closest point;
for Capsule-Box it is the normalized vector from the box-surface point
toward the capsule-segment point (unit whenever that vector is nonzero);
for Box-Capsule the normal is the outward box-face axis at the closest
box point (unit length, nonnegative dot with the outward direction). -/
theorem collision_normal_conventions :
    (∀ (a pa b pb : Vec3) (c : Collision), check_collision_aabb a pa b pb = some c →
      Vec3.length c.normal = 1 ∧ 0 ≤ Vec3.dot c.normal (pa - pb)) ∧
    (∀ (c1 : Capsule) (p1 : Vec3) (c2 : Capsule) (p2 : Vec3) (c : Collision),
      check_collision_capsule c1 p1 c2 p2 = some c →
      Vec3.length c.normal = 1 ∧
        (EPS < Vec3.length ((capsuleClosestPair c1 p1 c2 p2).1 -
            (capsuleClosestPair c1 p1 c2 p2).2) →
          0 ≤ Vec3.dot c.normal ((capsuleClosestPair c1 p1 c2 p2).1 -
            (capsuleClosestPair c1 p1 c2 p2).2))) ∧
    (∀ (caps : Capsule) (pc b pb : Vec3) (c : Collision),
      check_collision_capsule_aabb caps pc b pb = some c →
      c.normal = Vec3.normalize ((capsuleBoxPoints caps pc b pb).1 -
          (capsuleBoxPoints caps pc b pb).2) ∧
        (Vec3.length ((capsuleBoxPoints caps pc b pb).1 -
            (capsuleBoxPoints caps pc b pb).2) ≠ 0 →
          Vec3.length c.normal = 1)) ∧
    (∀ (a pa : Vec3) (caps : Capsule) (pc : Vec3) (c : Collision),
      check_collision_aabb_capsule a pa caps pc = some c →
      Vec3.length c.normal = 1 ∧
        0 ≤ Vec3.dot c.normal ((capsuleBoxPoints caps pc a pa).2 - pa)) := by
  refine ⟨?_, ?_, ?_, ?_⟩
  · intro a pa b pb c hc
    simp only [check_collision_aabb] at hc
    split_ifs at hc with h1 h2 h3
    · rw [Option.some.injEq] at hc
      subst hc
      exact ⟨length_signum_smul_unit _ _ (by norm_num [Vec3.dot, Vec3.unitX]),
        by rw [dot_smul_left, dot_unitX]; exact signum_mul_self_nonneg _⟩
    · rw [Option.some.injEq] at hc
      subst hc
      exact ⟨length_signum_smul_unit _ _ (by norm_num [Vec3.dot, Vec3.unitY]),
        by rw [dot_smul_left, dot_unitY]; exact signum_mul_self_nonneg _⟩
    · rw [Option.some.injEq] at hc
      subst hc
      exact ⟨length_signum_smul_unit _ _ (by norm_num [Vec3.dot, Vec3.unitZ]),
        by rw [dot_smul_left, dot_unitZ]; exact signum_mul_self_nonneg _⟩
  · intro c1 p1 c2 p2 c hc
    simp only [check_collision_capsule] at hc
    split_ifs at hc with h1 h2
    · rw [Option.some.injEq] at hc
      subst hc
      have hlen : Vec3.length ((closest_points_between_segments (c1.start + p1) (c1.endp + p1)
          (c2.start + p2) (c2.endp + p2)).1 - (closest_points_between_segments (c1.start + p1)
          (c1.endp + p1) (c2.start + p2) (c2.endp + p2)).2) ≠ 0 := by
        intro h0
        rw [h0] at h2
        rw [EPS] at h2
        norm_num at h2
      exact ⟨length_normalize hlen, fun _ => by
        simp only [capsuleClosestPair]
        exact dot_normalize_self_nonneg _⟩
    · rw [Option.some.injEq] at hc
      subst hc
      refine ⟨by rw [show Vec3.unitY = ⟨0, 1, 0⟩ from rfl, length_axisY]; norm_num, ?_⟩
      intro hgt
      rw [capsuleClosestPair] at hgt
      exact absurd hgt h2
  · intro caps pc b pb c hc
    simp only [check_collision_capsule_aabb] at hc
    split_ifs at hc with h1
    · rw [Option.some.injEq] at hc
      subst hc
      refine ⟨by simp only [capsuleBoxPoints], ?_⟩
      intro hne
      refine length_normalize ?_
      simpa [capsuleBoxPoints] using hne
  · intro a pa caps pc c hc
    simp only [check_collision_aabb_capsule, leastPenetrationAxisNormal] at hc
    have hcenter : (1 / 2 : ℝ) • (pa - (1 / 2 : ℝ) • a + (pa + (1 / 2 : ℝ) • a)) = pa := by
      ext <;> · simp; ring
    rw [hcenter] at hc
    split_ifs at hc with h1 h2 h3
    · rw [Option.some.injEq] at hc
      subst hc
      refine ⟨by rw [length_axisX, abs_signum], ?_⟩
      rw [dot_axisX]
      simp only [capsuleBoxPoints]
      exact signum_mul_self_nonneg _
    · rw [Option.some.injEq] at hc
      subst hc
      refine ⟨by rw [length_axisY, abs_signum], ?_⟩
      rw [dot_axisY]
      simp only [capsuleBoxPoints]
      exact signum_mul_self_nonneg _
    · rw [Option.some.injEq] at hc
      subst hc
      refine ⟨by rw [length_axisZ, abs_signum], ?_⟩
      rw [dot_axisZ]
      simp only [capsuleBoxPoints]
      exact signum_mul_self_nonneg _

/-- Evaluation of the Box-Box narrow phase on two overlapping unit boxes
(centers (1/2,0,0) and (0,0,0)). -/
theorem aabb_unit_pair_eval :
    check_collision_aabb ⟨1, 1, 1⟩ ⟨1 / 2, 0, 0⟩ ⟨1, 1, 1⟩ ⟨0, 0, 0⟩ =
      some ⟨⟨1 / 4, 0, 0⟩, ⟨1, 0, 0⟩, 1 / 2⟩ := by
  rw [check_collision_aabb]
  have habs : |(1 / 2 : ℝ)| = 1 / 2 := abs_of_nonneg (by norm_num)
  norm_num [Vec3.min_element, signum, Vec3.unitX, Vec3.unitY, Vec3.unitZ, habs]

/-- C5 counterexample: for two overlapping unit boxes with the self box at
(1/2,0,0) and the other at the origin, `check_collision` returns the normal
(1,0,0), whose dot product with the direction from shape A toward shape B is
negative: the normal points from B toward A, not from A toward B. -/
theorem aabb_normal_direction_counterexample :
    Collider.check_collision ⟨ColliderType.aabb ⟨1, 1, 1⟩, ⟨1 / 2, 0, 0⟩⟩
        ⟨ColliderType.aabb ⟨1, 1, 1⟩, ⟨0, 0, 0⟩⟩ =
      CheckResult.res (some ⟨⟨1 / 4, 0, 0⟩, ⟨1, 0, 0⟩, 1 / 2⟩) ∧
    Vec3.dot ⟨1, 0, 0⟩ ((⟨0, 0, 0⟩ : Vec3) - ⟨1 / 2, 0, 0⟩) < 0 := by
  constructor
  · rw [Collider.check_collision]
    have hrough : check_collision_rough ⟨ColliderType.aabb ⟨1, 1, 1⟩, ⟨1 / 2, 0, 0⟩⟩
        ⟨ColliderType.aabb ⟨1, 1, 1⟩, ⟨0, 0, 0⟩⟩ ≠ none := by
      rw [check_collision_rough, if_pos]
      · exact Option.some_ne_none _
      · have hs : (1 / 2 : ℝ) < Real.sqrt (3 / 4) := by
          rw [show (1 / 2 : ℝ) = Real.sqrt ((1 / 2) ^ 2) from (Real.sqrt_sq (by norm_num)).symm]
          apply Real.sqrt_lt_sqrt (by norm_num)
          norm_num
        have hd : Vec3.length ((⟨1 / 2, 0, 0⟩ : Vec3) - ⟨0, 0, 0⟩) = 1 / 2 := by
          simp only [Vec3.sub_def, Vec3.length, Vec3.dot]
          exact sqrt_eval (by norm_num) (by norm_num)
        have hr : get_largest_radius ⟨ColliderType.aabb ⟨1, 1, 1⟩, ⟨1 / 2, 0, 0⟩⟩
            = Real.sqrt (3 / 4) := by
          simp only [get_largest_radius, Vec3.smul_def, Vec3.length, Vec3.dot]
          norm_num
        have hr2 : get_largest_radius ⟨ColliderType.aabb ⟨1, 1, 1⟩, ⟨0, 0, 0⟩⟩
            = Real.sqrt (3 / 4) := by
          simp only [get_largest_radius, Vec3.smul_def, Vec3.length, Vec3.dot]
          norm_num
        show Vec3.length _ < _
        rw [hr, hr2, hd]
        linarith
    cases hcr : check_collision_rough ⟨ColliderType.aabb ⟨1, 1, 1⟩, ⟨1 / 2, 0, 0⟩⟩
        ⟨ColliderType.aabb ⟨1, 1, 1⟩, ⟨0, 0, 0⟩⟩ with
    | none => exact absurd hcr hrough
    | some c =>
        show CheckResult.res (check_collision_aabb ⟨1, 1, 1⟩ ⟨1 / 2, 0, 0⟩ ⟨1, 1, 1⟩ ⟨0, 0, 0⟩) = _
        rw [aabb_unit_pair_eval]
  · norm_num [Vec3.dot]

/-- Witness for C5's amended theorem: the Box-Box conjunct applied at the
two concrete overlapping unit boxes. -/
theorem collision_normal_conventions_witness :
    Vec3.length (⟨1, 0, 0⟩ : Vec3) = 1 ∧
      0 ≤ Vec3.dot ⟨1, 0, 0⟩ ((⟨1 / 2, 0, 0⟩ : Vec3) - ⟨0, 0, 0⟩) :=
  collision_normal_conventions.1 ⟨1, 1, 1⟩ ⟨1 / 2, 0, 0⟩ ⟨1, 1, 1⟩ ⟨0, 0, 0⟩
    ⟨⟨1 / 4, 0, 0⟩, ⟨1, 0, 0⟩, 1 / 2⟩ aabb_unit_pair_eval

/-- Evaluation of the capsule-segment-to-box closest point for the corner
contact used in the C8 exhibits. -/
theorem corner_capsule_cpca_eval :
    closest_point_capsule_aabb ⟨13 / 10, 14 / 10, -1⟩ ⟨13 / 10, 14 / 10, 1⟩
        ⟨-1, -1, -2⟩ ⟨1, 1, 2⟩ = ⟨13 / 10, 14 / 10, -1⟩ := by
  rw [closest_point_capsule_aabb]
  rw [if_neg]
  · norm_num [cpcaAxis, EPS]
  · simp only [Vec3.sub_def, Vec3.length, Vec3.dot]
    rw [show ((13:ℝ)/10 - 13/10) * (13/10 - 13/10) + (14/10 - 14/10) * (14/10 - 14/10) +
        (1 - -1) * (1 - -1) = 4 from by norm_num]
    rw [show Real.sqrt 4 = 2 from sqrt_eval (by norm_num) (by norm_num)]
    norm_num

/-- Evaluation of the Box-Capsule narrow phase at the corner contact. -/
theorem corner_aabb_capsule_eval :
    check_collision_aabb_capsule ⟨2, 2, 4⟩ ⟨0, 0, 0⟩ ⟨⟨0, 0, -1⟩, ⟨0, 0, 1⟩, 1 / 2⟩
        ⟨13 / 10, 14 / 10, 0⟩ =
      some ⟨⟨13 / 10, 14 / 10, -1⟩, ⟨0, 1, 0⟩, 0⟩ := by
  simp only [check_collision_aabb_capsule]
  have hargs : ((⟨0, 0, -1⟩ : Vec3) + ⟨13 / 10, 14 / 10, 0⟩) = (⟨13 / 10, 14 / 10, -1⟩ : Vec3)
      := by ext <;> norm_num
  have hargs2 : ((⟨0, 0, 1⟩ : Vec3) + ⟨13 / 10, 14 / 10, 0⟩) = (⟨13 / 10, 14 / 10, 1⟩ : Vec3)
      := by ext <;> norm_num
  have hmn : ((⟨0, 0, 0⟩ : Vec3) - (1 / 2 : ℝ) • ⟨2, 2, 4⟩) = (⟨-1, -1, -2⟩ : Vec3) := by
    ext <;> norm_num
  have hmx : ((⟨0, 0, 0⟩ : Vec3) + (1 / 2 : ℝ) • ⟨2, 2, 4⟩) = (⟨1, 1, 2⟩ : Vec3) := by
    ext <;> norm_num
  rw [hargs, hargs2, hmn, hmx, corner_capsule_cpca_eval]
  have hcpa : closest_point_on_aabb ⟨13 / 10, 14 / 10, -1⟩ ⟨-1, -1, -2⟩ ⟨1, 1, 2⟩
      = (⟨1, 1, -1⟩ : Vec3) := by
    rw [closest_point_on_aabb]
    norm_num [clampR]
  rw [hcpa]
  have hd : Vec3.length ((⟨13 / 10, 14 / 10, -1⟩ : Vec3) - ⟨1, 1, -1⟩) = 1 / 2 := by
    simp only [Vec3.sub_def, Vec3.length, Vec3.dot]
    exact sqrt_eval (by norm_num) (by norm_num)
  rw [hd]
  rw [if_pos (by norm_num)]
  have hsel : leastPenetrationAxisNormal
      ((⟨1, 1, -1⟩ : Vec3) - (1 / 2 : ℝ) • (⟨-1, -1, -2⟩ + ⟨1, 1, 2⟩))
      (((1 / 2 : ℝ) • ((⟨1, 1, 2⟩ : Vec3) - ⟨-1, -1, -2⟩)).x -
        |((⟨1, 1, -1⟩ : Vec3) - (1 / 2 : ℝ) • (⟨-1, -1, -2⟩ + ⟨1, 1, 2⟩)).x|)
      (((1 / 2 : ℝ) • ((⟨1, 1, 2⟩ : Vec3) - ⟨-1, -1, -2⟩)).y -
        |((⟨1, 1, -1⟩ : Vec3) - (1 / 2 : ℝ) • (⟨-1, -1, -2⟩ + ⟨1, 1, 2⟩)).y|)
      (((1 / 2 : ℝ) • ((⟨1, 1, 2⟩ : Vec3) - ⟨-1, -1, -2⟩)).z -
        |((⟨1, 1, -1⟩ : Vec3) - (1 / 2 : ℝ) • (⟨-1, -1, -2⟩ + ⟨1, 1, 2⟩)).z|) =
      (⟨0, 1, 0⟩ : Vec3) := by
    rw [leastPenetrationAxisNormal]
    norm_num [signum]
  rw [hsel]
  simp only [Option.some.injEq, Collision.mk.injEq]
  refine ⟨by ext <;> norm_num, trivial, by norm_num⟩


/-- Evaluation of the Capsule-Box narrow phase at the corner contact. -/
theorem corner_capsule_aabb_eval :
    check_collision_capsule_aabb ⟨⟨0, 0, -1⟩, ⟨0, 0, 1⟩, 1 / 2⟩ ⟨13 / 10, 14 / 10, 0⟩
        ⟨2, 2, 4⟩ ⟨0, 0, 0⟩ =
      some ⟨⟨1, 1, -1⟩, ⟨3 / 5, 4 / 5, 0⟩, 0⟩ := by
  simp only [check_collision_capsule_aabb]
  have hargs : ((⟨0, 0, -1⟩ : Vec3) + ⟨13 / 10, 14 / 10, 0⟩) = (⟨13 / 10, 14 / 10, -1⟩ : Vec3)
      := by ext <;> norm_num
  have hargs2 : ((⟨0, 0, 1⟩ : Vec3) + ⟨13 / 10, 14 / 10, 0⟩) = (⟨13 / 10, 14 / 10, 1⟩ : Vec3)
      := by ext <;> norm_num
  have hmn : ((⟨0, 0, 0⟩ : Vec3) - (1 / 2 : ℝ) • ⟨2, 2, 4⟩) = (⟨-1, -1, -2⟩ : Vec3) := by
    ext <;> norm_num
  have hmx : ((⟨0, 0, 0⟩ : Vec3) + (1 / 2 : ℝ) • ⟨2, 2, 4⟩) = (⟨1, 1, 2⟩ : Vec3) := by
    ext <;> norm_num
  rw [hargs, hargs2, hmn, hmx, corner_capsule_cpca_eval]
  have hcpa : closest_point_on_aabb ⟨13 / 10, 14 / 10, -1⟩ ⟨-1, -1, -2⟩ ⟨1, 1, 2⟩
      = (⟨1, 1, -1⟩ : Vec3) := by
    rw [closest_point_on_aabb]
    norm_num [clampR]
  rw [hcpa]
  have hd : Vec3.length ((⟨13 / 10, 14 / 10, -1⟩ : Vec3) - ⟨1, 1, -1⟩) = 1 / 2 := by
    simp only [Vec3.sub_def, Vec3.length, Vec3.dot]
    exact sqrt_eval (by norm_num) (by norm_num)
  rw [hd]
  rw [if_pos (by norm_num)]
  have hnrm : Vec3.normalize ((⟨13 / 10, 14 / 10, -1⟩ : Vec3) - ⟨1, 1, -1⟩)
      = (⟨3 / 5, 4 / 5, 0⟩ : Vec3) := by
    rw [Vec3.normalize, hd]
    ext <;> norm_num
  rw [hnrm]
  simp only [Option.some.injEq, Collision.mk.injEq]
  refine ⟨by ext <;> norm_num, trivial, by norm_num⟩

/-- C8 counterexample: a capsule touching the corner region of a tall box
produces tied penetrations `dx = dy = 0 < dz = 1`; the code returns the
Y-axis normal (0,1,0), while the claimed X-then-Y-then-Z tie-break
precedence would return (1,0,0). -/
theorem aabb_capsule_tiebreak_counterexample :
    check_collision_aabb_capsule ⟨2, 2, 4⟩ ⟨0, 0, 0⟩ ⟨⟨0, 0, -1⟩, ⟨0, 0, 1⟩, 1 / 2⟩
        ⟨13 / 10, 14 / 10, 0⟩ =
      some ⟨⟨13 / 10, 14 / 10, -1⟩, ⟨0, 1, 0⟩, 0⟩ ∧
    specNormalTiesPreferX ⟨1, 1, -1⟩ 0 0 1 = ⟨1, 0, 0⟩ ∧
    (⟨0, 1, 0⟩ : Vec3) ≠ ⟨1, 0, 0⟩ := by
  refine ⟨corner_aabb_capsule_eval, ?_, ?_⟩
  · rw [specNormalTiesPreferX]
    norm_num [signum]
  · intro h
    have := congrArg Vec3.x h
    norm_num at this

/-- C8 (amended): for a colliding Box (self)-Capsule (other) pair the
returned normal is the signed axis unit vector of the axis of least
penetration of the closest box-surface point relative to the box center,
with ties going to the later axis (X only when strictly smallest, then Y
when strictly smaller than Z, else Z); for the inverse Capsule (self)-Box
(other) ordering the normal is the normalized vector from the closest box
point toward the closest capsule-segment point; the two orderings are not
simple negations of each other (concrete exhibit in the last conjunct). -/
theorem box_capsule_normal_selection :
    (∀ (a pa : Vec3) (caps : Capsule) (pc : Vec3) (c : Collision),
      check_collision_aabb_capsule a pa caps pc = some c →
      c.normal = leastPenetrationAxisNormal ((capsuleBoxPoints caps pc a pa).2 - pa)
        (((1 / 2 : ℝ) • a).x - |((capsuleBoxPoints caps pc a pa).2 - pa).x|)
        (((1 / 2 : ℝ) • a).y - |((capsuleBoxPoints caps pc a pa).2 - pa).y|)
        (((1 / 2 : ℝ) • a).z - |((capsuleBoxPoints caps pc a pa).2 - pa).z|)) ∧
    (∀ (caps : Capsule) (pc b pb : Vec3) (c : Collision),
      check_collision_capsule_aabb caps pc b pb = some c →
      c.normal = Vec3.normalize ((capsuleBoxPoints caps pc b pb).1 -
        (capsuleBoxPoints caps pc b pb).2)) ∧
    (check_collision_capsule_aabb ⟨⟨0, 0, -1⟩, ⟨0, 0, 1⟩, 1 / 2⟩ ⟨13 / 10, 14 / 10, 0⟩
        ⟨2, 2, 4⟩ ⟨0, 0, 0⟩ = some ⟨⟨1, 1, -1⟩, ⟨3 / 5, 4 / 5, 0⟩, 0⟩ ∧
      (⟨0, 1, 0⟩ : Vec3) ≠ -(⟨3 / 5, 4 / 5, 0⟩ : Vec3)) := by
  refine ⟨?_, ?_, corner_capsule_aabb_eval, ?_⟩
  · intro a pa caps pc c hc
    simp only [check_collision_aabb_capsule] at hc
    have hcenter : (1 / 2 : ℝ) • (pa - (1 / 2 : ℝ) • a + (pa + (1 / 2 : ℝ) • a)) = pa := by
      ext <;> · simp; ring
    have hhalf : (1 / 2 : ℝ) • (pa + (1 / 2 : ℝ) • a - (pa - (1 / 2 : ℝ) • a))
        = (1 / 2 : ℝ) • a := by
      ext <;> · simp; ring
    rw [hcenter, hhalf] at hc
    split_ifs at hc with h1
    rw [Option.some.injEq] at hc
    subst hc
    simp only [capsuleBoxPoints]
  · intro caps pc b pb c hc
    simp only [check_collision_capsule_aabb] at hc
    split_ifs at hc with h1
    rw [Option.some.injEq] at hc
    subst hc
    simp only [capsuleBoxPoints]
  · intro h
    have := congrArg Vec3.y h
    norm_num at this

/-- Witness for C8's amended theorem: the Box-Capsule conjunct applied at
the concrete corner contact. -/
theorem box_capsule_normal_selection_witness :
    (⟨0, 1, 0⟩ : Vec3) =
      leastPenetrationAxisNormal
        ((capsuleBoxPoints ⟨⟨0, 0, -1⟩, ⟨0, 0, 1⟩, 1 / 2⟩ ⟨13 / 10, 14 / 10, 0⟩ ⟨2, 2, 4⟩
          ⟨0, 0, 0⟩).2 - ⟨0, 0, 0⟩)
        (((1 / 2 : ℝ) • (⟨2, 2, 4⟩ : Vec3)).x -
          |((capsuleBoxPoints ⟨⟨0, 0, -1⟩, ⟨0, 0, 1⟩, 1 / 2⟩ ⟨13 / 10, 14 / 10, 0⟩ ⟨2, 2, 4⟩
            ⟨0, 0, 0⟩).2 - ⟨0, 0, 0⟩).x|)
        (((1 / 2 : ℝ) • (⟨2, 2, 4⟩ : Vec3)).y -
          |((capsuleBoxPoints ⟨⟨0, 0, -1⟩, ⟨0, 0, 1⟩, 1 / 2⟩ ⟨13 / 10, 14 / 10, 0⟩ ⟨2, 2, 4⟩
            ⟨0, 0, 0⟩).2 - ⟨0, 0, 0⟩).y|)
        (((1 / 2 : ℝ) • (⟨2, 2, 4⟩ : Vec3)).z -
          |((capsuleBoxPoints ⟨⟨0, 0, -1⟩, ⟨0, 0, 1⟩, 1 / 2⟩ ⟨13 / 10, 14 / 10, 0⟩ ⟨2, 2, 4⟩
            ⟨0, 0, 0⟩).2 - ⟨0, 0, 0⟩).z|) :=
  box_capsule_normal_selection.1 ⟨2, 2, 4⟩ ⟨0, 0, 0⟩ ⟨⟨0, 0, -1⟩, ⟨0, 0, 1⟩, 1 / 2⟩
    ⟨13 / 10, 14 / 10, 0⟩ ⟨⟨13 / 10, 14 / 10, -1⟩, ⟨0, 1, 0⟩, 0⟩ corner_aabb_capsule_eval

/-- Evaluation of `split_face` on the cube's six quads. -/
theorem cube_quad_posy :
    split_face cubeVerts [7, 6, 5, 4] =
      [⟨[7, 5, 6], ⟨0, 1, 0⟩⟩, ⟨[7, 4, 5], ⟨0, 1, 0⟩⟩] := by
  norm_num [split_face, dedupQuad, vget, cubeVerts, compute_normal, Vec3.cross,
    Vec3.normalize, Vec3.length, Vec3.dot, List.getD, Vec3.mk.injEq, Real.sqrt_one]

theorem cube_quad_negy :
    split_face cubeVerts [3, 2, 1, 0] =
      [⟨[3, 0, 2], ⟨0, -1, 0⟩⟩, ⟨[2, 0, 1], ⟨0, -1, 0⟩⟩] := by
  norm_num [split_face, dedupQuad, vget, cubeVerts, compute_normal, Vec3.cross,
    Vec3.normalize, Vec3.length, Vec3.dot, List.getD, Vec3.mk.injEq, Real.sqrt_one]

theorem cube_quad_posx :
    split_face cubeVerts [1, 2, 6, 7] =
      [⟨[1, 6, 2], ⟨1, 0, 0⟩⟩, ⟨[1, 7, 6], ⟨1, 0, 0⟩⟩] := by
  norm_num [split_face, dedupQuad, vget, cubeVerts, compute_normal, Vec3.cross,
    Vec3.normalize, Vec3.length, Vec3.dot, List.getD, Vec3.mk.injEq, Real.sqrt_one]

theorem cube_quad_negx :
    split_face cubeVerts [0, 4, 5, 3] =
      [⟨[0, 3, 4], ⟨-1, 0, 0⟩⟩, ⟨[4, 3, 5], ⟨-1, 0, 0⟩⟩] := by
  norm_num [split_face, dedupQuad, vget, cubeVerts, compute_normal, Vec3.cross,
    Vec3.normalize, Vec3.length, Vec3.dot, List.getD, Vec3.mk.injEq, Real.sqrt_one]

theorem cube_quad_posz :
    split_face cubeVerts [2, 3, 5, 6] =
      [⟨[2, 5, 3], ⟨0, 0, 1⟩⟩, ⟨[2, 6, 5], ⟨0, 0, 1⟩⟩] := by
  norm_num [split_face, dedupQuad, vget, cubeVerts, compute_normal, Vec3.cross,
    Vec3.normalize, Vec3.length, Vec3.dot, List.getD, Vec3.mk.injEq, Real.sqrt_one]

theorem cube_quad_negz :
    split_face cubeVerts [0, 1, 7, 4] =
      [⟨[0, 4, 1], ⟨0, 0, -1⟩⟩, ⟨[1, 4, 7], ⟨0, 0, -1⟩⟩] := by
  norm_num [split_face, dedupQuad, vget, cubeVerts, compute_normal, Vec3.cross,
    Vec3.normalize, Vec3.length, Vec3.dot, List.getD, Vec3.mk.injEq, Real.sqrt_one]

/-- The full face list derived for the unit cube. -/
theorem cube_faces_eval :
    get_faces cubeVerts =
      [⟨[7, 5, 6], ⟨0, 1, 0⟩⟩, ⟨[7, 4, 5], ⟨0, 1, 0⟩⟩,
        ⟨[3, 0, 2], ⟨0, -1, 0⟩⟩, ⟨[2, 0, 1], ⟨0, -1, 0⟩⟩,
        ⟨[1, 6, 2], ⟨1, 0, 0⟩⟩, ⟨[1, 7, 6], ⟨1, 0, 0⟩⟩,
        ⟨[0, 3, 4], ⟨-1, 0, 0⟩⟩, ⟨[4, 3, 5], ⟨-1, 0, 0⟩⟩,
        ⟨[2, 5, 3], ⟨0, 0, 1⟩⟩, ⟨[2, 6, 5], ⟨0, 0, 1⟩⟩,
        ⟨[0, 4, 1], ⟨0, 0, -1⟩⟩, ⟨[1, 4, 7], ⟨0, 0, -1⟩⟩] := by
  rw [get_faces]
  simp only [List.map_cons, List.map_nil, cube_quad_posy, cube_quad_negy, cube_quad_posx,
    cube_quad_negx, cube_quad_posz, cube_quad_negz]
  rfl

/-- C6: a quad with 4 unique vertices yields 2 triangles, with exactly 3
unique vertices exactly 1 triangle, and with fewer than 3 unique vertices 0
faces; the unit-cube hull built from the 8 distinct axis-aligned corner
vertices derives exactly 12 triangles, 2 per axis-aligned direction, and
every face normal is one of the 6 unit axis vectors. -/
theorem hull_face_derivation :
    (∀ (vs : List Vec3) (quad : List ℕ), (dedupQuad vs quad ([], [])).2.length = 4 →
      (split_face vs quad).length = 2) ∧
    (∀ (vs : List Vec3) (quad : List ℕ), (dedupQuad vs quad ([], [])).2.length = 3 →
      (split_face vs quad).length = 1) ∧
    (∀ (vs : List Vec3) (quad : List ℕ), (dedupQuad vs quad ([], [])).2.length < 3 →
      (split_face vs quad).length = 0) ∧
    (Hull.new cubeVerts).faces.length = 12 ∧
    (∀ f ∈ (Hull.new cubeVerts).faces,
      f.normal ∈ ([⟨1, 0, 0⟩, ⟨-1, 0, 0⟩, ⟨0, 1, 0⟩, ⟨0, -1, 0⟩, ⟨0, 0, 1⟩, ⟨0, 0, -1⟩] :
        List Vec3)) ∧
    countNormal (Hull.new cubeVerts).faces ⟨1, 0, 0⟩ = 2 ∧
    countNormal (Hull.new cubeVerts).faces ⟨-1, 0, 0⟩ = 2 ∧
    countNormal (Hull.new cubeVerts).faces ⟨0, 1, 0⟩ = 2 ∧
    countNormal (Hull.new cubeVerts).faces ⟨0, -1, 0⟩ = 2 ∧
    countNormal (Hull.new cubeVerts).faces ⟨0, 0, 1⟩ = 2 ∧
    countNormal (Hull.new cubeVerts).faces ⟨0, 0, -1⟩ = 2 := by
  have hfaces : (Hull.new cubeVerts).faces = get_faces cubeVerts := rfl
  refine ⟨?_, ?_, ?_, ?_, ?_, ?_, ?_, ?_, ?_, ?_, ?_⟩
  · intro vs quad h
    simp only [split_face, h]
    rfl
  · intro vs quad h
    simp only [split_face, h]
    rfl
  · intro vs quad h
    rcases hn : (dedupQuad vs quad ([], [])).2.length with _ | n
    · simp only [split_face, hn]
      rfl
    · rcases n with _ | n
      · simp only [split_face, hn]
        rfl
      · rcases n with _ | n
        · simp only [split_face, hn]
          rfl
        · rw [hn] at h
          omega
  · rw [hfaces, cube_faces_eval]
    rfl
  · rw [hfaces, cube_faces_eval]
    intro f hf
    fin_cases hf <;> simp [Vec3.mk.injEq]
  · rw [hfaces, cube_faces_eval]
    norm_num [countNormal, Vec3.mk.injEq]
  · rw [hfaces, cube_faces_eval]
    norm_num [countNormal, Vec3.mk.injEq]
  · rw [hfaces, cube_faces_eval]
    norm_num [countNormal, Vec3.mk.injEq]
  · rw [hfaces, cube_faces_eval]
    norm_num [countNormal, Vec3.mk.injEq]
  · rw [hfaces, cube_faces_eval]
    norm_num [countNormal, Vec3.mk.injEq]
  · rw [hfaces, cube_faces_eval]
    norm_num [countNormal, Vec3.mk.injEq]

/-- Witness for C6: the 4-unique-vertex count applied to the cube's top
quad. -/
theorem hull_face_derivation_witness :
    (split_face cubeVerts [7, 6, 5, 4]).length = 2 :=
  hull_face_derivation.1 cubeVerts [7, 6, 5, 4]
    (by norm_num [dedupQuad, vget, cubeVerts, Vec3.mk.injEq])

/-- The SAT fold returns `none` exactly when some remaining axis has a
non-positive overlap. -/
theorem satGo_eq_none_iff (av hv : List Vec3) (axes : List Vec3) (st : ℝ × Vec3) :
    satGo av hv axes st = none ↔ ∃ ax ∈ axes, overlapOn av hv ax ≤ 0 := by
  induction axes generalizing st with
  | nil => simp [satGo]
  | cons ax rest ih =>
      simp only [satGo]
      by_cases h : overlapOn av hv ax ≤ 0
      · simp only [if_pos h]
        constructor
        · intro _
          exact ⟨ax, List.mem_cons_self _ _, h⟩
        · intro _
          trivial
      · simp only [if_neg h]
        by_cases h2 : overlapOn av hv ax < st.1
        · rw [if_pos h2, ih]
          constructor
          · rintro ⟨a2, ha2, hle⟩
            exact ⟨a2, List.mem_cons_of_mem _ ha2, hle⟩
          · rintro ⟨a2, ha2, hle⟩
            rcases List.mem_cons.mp ha2 with rfl | hm
            · exact absurd hle h
            · exact ⟨a2, hm, hle⟩
        · rw [if_neg h2, ih]
          constructor
          · rintro ⟨a2, ha2, hle⟩
            exact ⟨a2, List.mem_cons_of_mem _ ha2, hle⟩
          · rintro ⟨a2, ha2, hle⟩
            rcases List.mem_cons.mp ha2 with rfl | hm
            · exact absurd hle h
            · exact ⟨a2, hm, hle⟩

/-- A successful SAT fold returns the minimum overlap over the initial
state and all remaining axes, together with a witnessing axis. -/
theorem satGo_some_spec (av hv : List Vec3) (axes : List Vec3) (st : ℝ × Vec3)
    (pen : ℝ) (n : Vec3) (h : satGo av hv axes st = some (pen, n)) :
    ((pen = st.1 ∧ n = st.2) ∨ ∃ ax ∈ axes, pen = overlapOn av hv ax ∧ n = ax) ∧
      pen ≤ st.1 ∧ ∀ ax ∈ axes, pen ≤ overlapOn av hv ax := by
  induction axes generalizing st with
  | nil =>
      simp only [satGo, Option.some.injEq] at h
      subst h
      exact ⟨Or.inl ⟨rfl, rfl⟩, le_rfl, by simp⟩
  | cons ax rest ih =>
      simp only [satGo] at h
      split_ifs at h with h1 h2
      · obtain ⟨hmem, hle, hall⟩ := ih _ h
        refine ⟨?_, ?_, ?_⟩
        · rcases hmem with ⟨hp, hn⟩ | ⟨a2, ha2, hp, hn⟩
          · exact Or.inr ⟨ax, List.mem_cons_self _ _, hp, hn⟩
          · exact Or.inr ⟨a2, List.mem_cons_of_mem _ ha2, hp, hn⟩
        · exact le_trans hle (le_of_lt h2)
        · intro a2 ha2
          rcases List.mem_cons.mp ha2 with rfl | hm
          · exact hle
          · exact hall a2 hm
      · obtain ⟨hmem, hle, hall⟩ := ih _ h
        refine ⟨?_, hle, ?_⟩
        · rcases hmem with ⟨hp, hn⟩ | ⟨a2, ha2, hp, hn⟩
          · exact Or.inl ⟨hp, hn⟩
          · exact Or.inr ⟨a2, List.mem_cons_of_mem _ ha2, hp, hn⟩
        · intro a2 ha2
          rcases List.mem_cons.mp ha2 with rfl | hm
          · exact le_trans hle (not_lt.mp h2)
          · exact hall a2 hm


/-- C3 (amended): `check_collision` itself returns "no collision" for every
Box-Hull pair (the dispatch arm is an unimplemented stub); the standalone
SAT routine `check_collision_aabb_hull` (not reachable from
`check_collision`) reports a collision iff every tested axis (the 3 box
principal axes plus every hull face normal) has positive 1D projection
overlap of the two vertex sets; when it reports one, the depth is the
minimum (positive) overlap over all tested axes and the normal is a
minimizing axis, flipped toward the box when it points away and then
normalized. -/
theorem aabb_hull_sat_characterization :
    (∀ (c1 c2 : Collider) (a : Vec3) (hl : Hull),
      c1.collider_type = ColliderType.aabb a → c2.collider_type = ColliderType.hull hl →
      Collider.check_collision c1 c2 = CheckResult.res none) ∧
    (∀ (a pa : Vec3) (hl : Hull) (ph : Vec3),
      (check_collision_aabb_hull a pa hl ph = none ↔
        ∃ ax ∈ satAxes hl,
          overlapOn (aabbVertices a pa) (hullWorldVertices hl ph) ax ≤ 0) ∧
      (∀ c, check_collision_aabb_hull a pa hl ph = some c →
        (∀ ax ∈ satAxes hl,
          0 < overlapOn (aabbVertices a pa) (hullWorldVertices hl ph) ax) ∧
        0 < c.depth ∧
        ∃ ax ∈ satAxes hl,
          overlapOn (aabbVertices a pa) (hullWorldVertices hl ph) ax = c.depth ∧
          (∀ ax2 ∈ satAxes hl,
            c.depth ≤ overlapOn (aabbVertices a pa) (hullWorldVertices hl ph) ax2) ∧
          c.normal = Vec3.normalize (if Vec3.dot ax (pa - ph) < 0 then -ax else ax))) := by
  constructor
  · intro c1 c2 a hl ha hh
    rw [Collider.check_collision]
    cases hcr : check_collision_rough c1 c2 with
    | none => rfl
    | some c => rw [narrow_phase, ha, hh]
  · intro a pa hl ph
    have hax : satAxes hl
        = Vec3.unitX :: Vec3.unitY :: Vec3.unitZ :: hl.faces.map Face.normal := rfl
    simp only [check_collision_aabb_hull, hax]
    set av := aabbVertices a pa with hav
    set hv := hullWorldVertices hl ph with hhv
    by_cases hX : overlapOn av hv Vec3.unitX ≤ 0
    · rw [if_pos hX]
      constructor
      · constructor
        · intro _
          exact ⟨Vec3.unitX, List.mem_cons_self _ _, hX⟩
        · intro _
          rfl
      · intro c hc
        exact absurd hc (by simp)
    · rw [if_neg hX]
      cases hs : satGo av hv (Vec3.unitY :: Vec3.unitZ :: hl.faces.map Face.normal)
          (overlapOn av hv Vec3.unitX, Vec3.unitX) with
      | none =>
          constructor
          · constructor
            · intro _
              obtain ⟨ax, haxm, hle⟩ := (satGo_eq_none_iff av hv _ _).mp hs
              exact ⟨ax, List.mem_cons_of_mem _ haxm, hle⟩
            · intro _
              rfl
          · intro c hc
            exact absurd hc (by simp)
      | some st =>
          obtain ⟨pen, n⟩ := st
          have hnone : ¬ ∃ ax ∈ (Vec3.unitY :: Vec3.unitZ :: hl.faces.map Face.normal),
              overlapOn av hv ax ≤ 0 := by
            intro hcon
            rw [← satGo_eq_none_iff av hv _
              (overlapOn av hv Vec3.unitX, Vec3.unitX)] at hcon
            rw [hs] at hcon
            exact absurd hcon (by simp)
          obtain ⟨hmem, hle, hall⟩ := satGo_some_spec av hv _ _ _ _ hs
          constructor
          · constructor
            · intro hcon
              exact absurd hcon (by simp)
            · rintro ⟨ax, haxm, hle2⟩
              rcases List.mem_cons.mp haxm with rfl | hm
              · exact absurd hle2 hX
              · exact absurd ⟨ax, hm, hle2⟩ hnone
          · intro c hc
            rw [Option.some.injEq] at hc
            subst hc
            refine ⟨?_, ?_, ?_⟩
            · intro ax haxm
              rcases List.mem_cons.mp haxm with rfl | hm
              · exact lt_of_not_le hX
              · by_contra hno
                exact hnone ⟨ax, hm, le_of_not_lt hno⟩
            · show 0 < pen
              rcases hmem with ⟨hp, _⟩ | ⟨ax, haxm, hp, _⟩
              · rw [hp]
                exact lt_of_not_le hX
              · rw [hp]
                by_contra hno
                exact hnone ⟨ax, haxm, le_of_not_lt hno⟩
            · rcases hmem with ⟨hp, hn⟩ | ⟨ax, haxm, hp, hn⟩
              · refine ⟨Vec3.unitX, List.mem_cons_self _ _, ?_, ?_, ?_⟩
                · exact (hp ▸ rfl)
                · intro ax2 hax2
                  rcases List.mem_cons.mp hax2 with rfl | hm
                  · exact le_of_eq hp
                  · exact hall ax2 hm
                · show Vec3.normalize _ = _
                  rw [hn]
              · refine ⟨ax, List.mem_cons_of_mem _ haxm, ?_, ?_, ?_⟩
                · exact (hp ▸ rfl)
                · intro ax2 hax2
                  rcases List.mem_cons.mp hax2 with rfl | hm
                  · exact hle
                  · exact hall ax2 hm
                · show Vec3.normalize _ = _
                  rw [hn]


/-- Evaluation of the SAT routine on a unit box centered at the origin
against the unit-cube hull at the origin: all 15 tested axes overlap by
1/2, so a depth-1/2 collision along `X` is reported. -/
theorem cube_sat_eval :
    check_collision_aabb_hull ⟨1, 1, 1⟩ ⟨0, 0, 0⟩ (Hull.new cubeVerts) ⟨0, 0, 0⟩ =
      some ⟨⟨0, 0, 0⟩, ⟨1, 0, 0⟩, 1 / 2⟩ := by
  have hav : aabbVertices ⟨1, 1, 1⟩ ⟨0, 0, 0⟩ =
      [⟨-(1 / 2), -(1 / 2), -(1 / 2)⟩, ⟨1 / 2, -(1 / 2), -(1 / 2)⟩, ⟨1 / 2, -(1 / 2), 1 / 2⟩,
        ⟨-(1 / 2), -(1 / 2), 1 / 2⟩, ⟨-(1 / 2), 1 / 2, -(1 / 2)⟩, ⟨1 / 2, 1 / 2, -(1 / 2)⟩,
        ⟨1 / 2, 1 / 2, 1 / 2⟩, ⟨-(1 / 2), 1 / 2, 1 / 2⟩] := by
    norm_num [aabbVertices, Vec3.mk.injEq]
  have hhv : hullWorldVertices (Hull.new cubeVerts) ⟨0, 0, 0⟩ = cubeVerts := by
    norm_num [hullWorldVertices, Hull.new, cubeVerts, Vec3.mk.injEq]
  have hfn : (Hull.new cubeVerts).faces.map Face.normal =
      [⟨0, 1, 0⟩, ⟨0, 1, 0⟩, ⟨0, -1, 0⟩, ⟨0, -1, 0⟩, ⟨1, 0, 0⟩, ⟨1, 0, 0⟩, ⟨-1, 0, 0⟩,
        ⟨-1, 0, 0⟩, ⟨0, 0, 1⟩, ⟨0, 0, 1⟩, ⟨0, 0, -1⟩, ⟨0, 0, -1⟩] := by
    rw [show (Hull.new cubeVerts).faces = get_faces cubeVerts from rfl, cube_faces_eval]
    rfl
  have hoX : overlapOn (aabbVertices ⟨1, 1, 1⟩ ⟨0, 0, 0⟩)
      (hullWorldVertices (Hull.new cubeVerts) ⟨0, 0, 0⟩) ⟨1, 0, 0⟩ = 1 / 2 := by
    rw [hav, hhv]
    norm_num [overlapOn, project, vget, Vec3.dot, cubeVerts]
  have hoY : overlapOn (aabbVertices ⟨1, 1, 1⟩ ⟨0, 0, 0⟩)
      (hullWorldVertices (Hull.new cubeVerts) ⟨0, 0, 0⟩) ⟨0, 1, 0⟩ = 1 / 2 := by
    rw [hav, hhv]
    norm_num [overlapOn, project, vget, Vec3.dot, cubeVerts]
  have hoZ : overlapOn (aabbVertices ⟨1, 1, 1⟩ ⟨0, 0, 0⟩)
      (hullWorldVertices (Hull.new cubeVerts) ⟨0, 0, 0⟩) ⟨0, 0, 1⟩ = 1 / 2 := by
    rw [hav, hhv]
    norm_num [overlapOn, project, vget, Vec3.dot, cubeVerts]
  have hoXn : overlapOn (aabbVertices ⟨1, 1, 1⟩ ⟨0, 0, 0⟩)
      (hullWorldVertices (Hull.new cubeVerts) ⟨0, 0, 0⟩) ⟨-1, 0, 0⟩ = 1 / 2 := by
    rw [hav, hhv]
    norm_num [overlapOn, project, vget, Vec3.dot, cubeVerts]
  have hoYn : overlapOn (aabbVertices ⟨1, 1, 1⟩ ⟨0, 0, 0⟩)
      (hullWorldVertices (Hull.new cubeVerts) ⟨0, 0, 0⟩) ⟨0, -1, 0⟩ = 1 / 2 := by
    rw [hav, hhv]
    norm_num [overlapOn, project, vget, Vec3.dot, cubeVerts]
  have hoZn : overlapOn (aabbVertices ⟨1, 1, 1⟩ ⟨0, 0, 0⟩)
      (hullWorldVertices (Hull.new cubeVerts) ⟨0, 0, 0⟩) ⟨0, 0, -1⟩ = 1 / 2 := by
    rw [hav, hhv]
    norm_num [overlapOn, project, vget, Vec3.dot, cubeVerts]
  have hXu : (Vec3.unitX : Vec3) = ⟨1, 0, 0⟩ := rfl
  have hYu : (Vec3.unitY : Vec3) = ⟨0, 1, 0⟩ := rfl
  have hZu : (Vec3.unitZ : Vec3) = ⟨0, 0, 1⟩ := rfl
  simp only [check_collision_aabb_hull, hfn, hXu, hYu, hZu]
  rw [hoX]
  rw [if_neg (by norm_num)]
  have hsat : satGo (aabbVertices ⟨1, 1, 1⟩ ⟨0, 0, 0⟩)
      (hullWorldVertices (Hull.new cubeVerts) ⟨0, 0, 0⟩)
      [⟨0, 1, 0⟩, ⟨0, 0, 1⟩, ⟨0, 1, 0⟩, ⟨0, 1, 0⟩, ⟨0, -1, 0⟩, ⟨0, -1, 0⟩, ⟨1, 0, 0⟩,
        ⟨1, 0, 0⟩, ⟨-1, 0, 0⟩, ⟨-1, 0, 0⟩, ⟨0, 0, 1⟩, ⟨0, 0, 1⟩, ⟨0, 0, -1⟩, ⟨0, 0, -1⟩]
      (1 / 2, ⟨1, 0, 0⟩) = some (1 / 2, ⟨1, 0, 0⟩) := by
    norm_num [satGo, hoX, hoY, hoZ, hoXn, hoYn, hoZn]
  rw [hsat]
  simp only []
  have hnrm : Vec3.normalize
      (if Vec3.dot ⟨1, 0, 0⟩ ((⟨0, 0, 0⟩ : Vec3) - ⟨0, 0, 0⟩) < 0 then -(⟨1, 0, 0⟩ : Vec3)
        else ⟨1, 0, 0⟩) = (⟨1, 0, 0⟩ : Vec3) := by
    rw [if_neg (by norm_num [Vec3.dot])]
    rw [Vec3.normalize, Vec3.length]
    rw [show Vec3.dot ⟨1, 0, 0⟩ ⟨1, 0, 0⟩ = 1 from by norm_num [Vec3.dot]]
    rw [Real.sqrt_one]
    ext <;> norm_num
  simp only [hnrm]
  simp only [Option.some.injEq, Collision.mk.injEq]
  refine ⟨by ext <;> norm_num, trivial, trivial⟩


/-- C3 counterexample: for an overlapping Box-Hull pair (no separating
axis exists; the standalone SAT routine reports a depth-1/2 collision),
`check_collision` nevertheless returns "no collision": the Box-Hull
dispatch arm is an unimplemented stub and never calls the SAT routine. -/
theorem box_hull_unimplemented_counterexample :
    Collider.check_collision ⟨ColliderType.aabb ⟨1, 1, 1⟩, ⟨0, 0, 0⟩⟩
        ⟨ColliderType.hull (Hull.new cubeVerts), ⟨0, 0, 0⟩⟩ =
      CheckResult.res none ∧
    check_collision_aabb_hull ⟨1, 1, 1⟩ ⟨0, 0, 0⟩ (Hull.new cubeVerts) ⟨0, 0, 0⟩ =
      some ⟨⟨0, 0, 0⟩, ⟨1, 0, 0⟩, 1 / 2⟩ := by
  constructor
  · rw [Collider.check_collision]
    cases hcr : check_collision_rough ⟨ColliderType.aabb ⟨1, 1, 1⟩, ⟨0, 0, 0⟩⟩
        ⟨ColliderType.hull (Hull.new cubeVerts), ⟨0, 0, 0⟩⟩ with
    | none => rfl
    | some c => rfl
  · exact cube_sat_eval

/-- Witness for C3's amended theorem: both conjuncts applied at concrete
inputs (a Box-Hull collider pair, and the overlapping unit box and cube of
`cube_sat_eval`). -/
theorem aabb_hull_sat_characterization_witness :
    Collider.check_collision ⟨ColliderType.aabb ⟨1, 1, 1⟩, ⟨0, 0, 0⟩⟩
        ⟨ColliderType.hull (Hull.new cubeVerts), ⟨2, 2, 2⟩⟩ =
      CheckResult.res none ∧
    ((∀ ax ∈ satAxes (Hull.new cubeVerts),
        0 < overlapOn (aabbVertices ⟨1, 1, 1⟩ ⟨0, 0, 0⟩)
          (hullWorldVertices (Hull.new cubeVerts) ⟨0, 0, 0⟩) ax) ∧
      0 < (1 / 2 : ℝ) ∧
      ∃ ax ∈ satAxes (Hull.new cubeVerts),
        overlapOn (aabbVertices ⟨1, 1, 1⟩ ⟨0, 0, 0⟩)
          (hullWorldVertices (Hull.new cubeVerts) ⟨0, 0, 0⟩) ax = 1 / 2 ∧
        (∀ ax2 ∈ satAxes (Hull.new cubeVerts),
          (1 / 2 : ℝ) ≤ overlapOn (aabbVertices ⟨1, 1, 1⟩ ⟨0, 0, 0⟩)
            (hullWorldVertices (Hull.new cubeVerts) ⟨0, 0, 0⟩) ax2) ∧
        (⟨1, 0, 0⟩ : Vec3) = Vec3.normalize
          (if Vec3.dot ax ((⟨0, 0, 0⟩ : Vec3) - ⟨0, 0, 0⟩) < 0 then -ax else ax)) :=
  ⟨aabb_hull_sat_characterization.1 _ _ ⟨1, 1, 1⟩ (Hull.new cubeVerts) rfl rfl,
    (aabb_hull_sat_characterization.2 ⟨1, 1, 1⟩ ⟨0, 0, 0⟩ (Hull.new cubeVerts) ⟨0, 0, 0⟩).2
      ⟨⟨0, 0, 0⟩, ⟨1, 0, 0⟩, 1 / 2⟩ cube_sat_eval⟩

theorem clampR01_neg {x : ℝ} (h : x < 0) : clampR x 0 1 = 0 := by
  rw [clampR, if_pos h]

theorem clampR01_gt {x : ℝ} (h : 1 < x) : clampR x 0 1 = 1 := by
  rw [clampR, if_neg (not_lt.mpr (by linarith)), if_pos h]

theorem clampR01_mem {x : ℝ} (h0 : 0 ≤ x) (h1 : x ≤ 1) : clampR x 0 1 = x := by
  rw [clampR, if_neg (not_lt.mpr h0), if_neg (not_lt.mpr h1)]

theorem clampR01_nonpos {x : ℝ} (h : x ≤ 0) : clampR x 0 1 = 0 := by
  rcases lt_or_eq_of_le h with h2 | h2
  · exact clampR01_neg h2
  · rw [h2, clampR01_mem le_rfl (by norm_num)]

theorem clampR01_ge_one {x : ℝ} (h : 1 ≤ x) : clampR x 0 1 = 1 := by
  rcases lt_or_eq_of_le h with h2 | h2
  · exact clampR01_gt h2
  · rw [← h2, clampR01_mem (by norm_num) le_rfl]

/-- `segParams` with its near-parallel test resolved (the denominator is
strictly above the epsilon threshold). -/
theorem segParams_eval (A E B C F : ℝ) (hD : EPS < A * E - B * B) :
    segParams A E B C F =
      (if B * clampR ((B * F - C * E) / (A * E - B * B)) 0 1 + F < 0 then
        (clampR (-C / A) 0 1, 0)
      else if B * clampR ((B * F - C * E) / (A * E - B * B)) 0 1 + F > E then
        (clampR ((B - C) / A) 0 1, 1)
      else (clampR ((B * F - C * E) / (A * E - B * B)) 0 1,
        (B * clampR ((B * F - C * E) / (A * E - B * B)) 0 1 + F) / E)) := by
  have h0 : (0 : ℝ) < EPS := by norm_num [EPS]
  rw [segParams, if_pos (show |A * E - B * B| > EPS from by
    rw [abs_of_pos (h0.trans hD)]; exact hD)]

/-- In the both-non-degenerate branch, `closest_points_between_segments`
computes exactly the `segParams` parameter pair. -/
theorem closest_points_eq_segParams (s1 e1 s2 e2 : Vec3)
    (h1 : EPS < Vec3.dot (e1 - s1) (e1 - s1))
    (h2 : EPS < Vec3.dot (e2 - s2) (e2 - s2)) :
    closest_points_between_segments s1 e1 s2 e2 =
      (s1 + (segParams (Vec3.dot (e1 - s1) (e1 - s1)) (Vec3.dot (e2 - s2) (e2 - s2))
          (Vec3.dot (e1 - s1) (e2 - s2)) (Vec3.dot (e1 - s1) (s1 - s2))
          (Vec3.dot (e2 - s2) (s1 - s2))).1 • (e1 - s1),
        s2 + (segParams (Vec3.dot (e1 - s1) (e1 - s1)) (Vec3.dot (e2 - s2) (e2 - s2))
          (Vec3.dot (e1 - s1) (e2 - s2)) (Vec3.dot (e1 - s1) (s1 - s2))
          (Vec3.dot (e2 - s2) (s1 - s2))).2 • (e2 - s2)) := by
  rw [closest_points_between_segments, segParams]
  rw [if_neg (by push_neg; intro hc; exact absurd hc (not_le.mpr h1))]
  rw [if_neg (not_le.mpr h1), if_neg (not_le.mpr h2)]

end

end BevyGame

namespace BevyGame

noncomputable section

set_option maxHeartbeats 8000000 in
theorem segParams_swap (A E B C F : ℝ) (hA : EPS < A) (hE : EPS < E)
    (hD : EPS < A * E - B * B) :
    segParams E A B (-F) (-C) = ((segParams A E B C F).2, (segParams A E B C F).1) := by
  have hEPS0 : (0 : ℝ) < EPS := by norm_num [EPS]
  have hA0 : 0 < A := hEPS0.trans hA
  have hE0 : 0 < E := hEPS0.trans hE
  have hD0 : 0 < A * E - B * B := hEPS0.trans hD
  have hD2 : EPS < E * A - B * B := by nlinarith [hD]
  rw [segParams_eval A E B C F hD, segParams_eval E A B (-F) (-C) hD2]
  have hT : (B * -C - -F * A) / (E * A - B * B) = (A * F - B * C) / (A * E - B * B) := by
    rw [show E * A - B * B = A * E - B * B from by ring]
    ring_nf
  rw [hT]
  have hv1 : - -F / E = F / E := by rw [neg_neg]
  have hv2 : (B - -F) / E = (B + F) / E := by rw [sub_neg_eq_add]
  rw [hv1, hv2]
  set S : ℝ := (B * F - C * E) / (A * E - B * B) with hS
  set S' : ℝ := (A * F - B * C) / (A * E - B * B) with hS'
  have hSmul : S * (A * E - B * B) = B * F - C * E := by
    rw [hS]; field_simp
  have hS'mul : S' * (A * E - B * B) = A * F - B * C := by
    rw [hS']; field_simp
  have key1 : B * S + F = E * S' :=
    mul_right_cancel₀ (ne_of_gt hD0)
      (show (B * S + F) * (A * E - B * B) = (E * S') * (A * E - B * B) from by
        linear_combination B * hSmul - E * hS'mul)
  have key2 : B * S' - C = A * S :=
    mul_right_cancel₀ (ne_of_gt hD0)
      (show (B * S' - C) * (A * E - B * B) = (A * S) * (A * E - B * B) from by
        linear_combination B * hS'mul - A * hSmul)
  clear_value S S'
  clear hT hv1 hv2 hS hS' hD hA hE hD2
  by_cases hS0 : S < 0
  · -- S < 0: forward state 0, forward proj = F
    have hSD_neg : B * F - C * E < 0 := by
      nlinarith [hSmul, mul_neg_of_neg_of_pos hS0 hD0]
    rw [clampR01_neg hS0]
    rw [show B * 0 + F = F from by ring]
    by_cases hF : F < 0
    · -- forward low branch: (clampR (-C/A) 0 1, 0)
      rw [if_pos hF]
      by_cases hS'0 : S' < 0
      · have hS'D_neg : A * F - B * C < 0 := by
          nlinarith [hS'mul, mul_neg_of_neg_of_pos hS'0 hD0]
        rw [clampR01_neg hS'0, show B * 0 + -C = -C from by ring]
        by_cases hC : -C < 0
        · rw [if_pos hC]
          simp only [Prod.mk.injEq]
          exact ⟨clampR01_neg (div_neg_of_neg_of_pos hF hE0),
            (clampR01_neg (div_neg_of_neg_of_pos (by linarith) hA0)).symm⟩
        · by_cases hCA : -C > A
          · rw [if_neg hC, if_pos hCA]
            simp only [Prod.mk.injEq]
            constructor
            · -- B + F ≤ 0
              refine clampR01_nonpos (div_nonpos_of_nonpos_of_nonneg ?_ hE0.le)
              rcases le_or_lt B 0 with hB | hB
              · linarith
              · nlinarith [hS'D_neg, mul_pos hB (show 0 < -C - A from by linarith)]
            · exact (clampR01_ge_one ((le_div_iff₀ hA0).mpr (by linarith))).symm
          · rw [if_neg hC, if_neg hCA]
            push_neg at hC hCA
            simp only [Prod.mk.injEq]
            refine ⟨by trivial, ?_⟩
            exact (clampR01_mem (div_nonneg (by linarith) hA0.le)
              ((div_le_one hA0).mpr (by linarith))).symm
      · by_cases hS'1 : 1 < S'
        · have hS'D_gt : A * F - B * C > A * E - B * B := by
            nlinarith [hS'mul, mul_lt_mul_of_pos_right hS'1 hD0]
          rw [clampR01_gt hS'1, show B * 1 + -C = B - C from by ring]
          have hC0 : 0 ≤ C := by
            by_contra hc
            push_neg at hc
            rcases le_or_lt B 0 with hB | hB
            · -- B ≤ 0, C < 0 makes B*C ≥ 0, so A*F > D forces F > 0, contra
              nlinarith [hS'D_gt, mul_nonneg (neg_nonneg.mpr hB) (neg_nonneg.mpr hc.le),
                mul_neg_of_pos_of_neg hA0 hF]
            · -- B > 0: combine B*(B*F - C*E) < 0 with E*(A*F - B*C) > E*D
              have t1 : B * (B * F - C * E) < 0 := mul_neg_of_pos_of_neg hB hSD_neg
              have t2 : E * (A * F - B * C) > E * (A * E - B * B) :=
                mul_lt_mul_of_pos_left hS'D_gt hE0
              nlinarith [t1, t2, mul_pos hE0 hD0, mul_neg_of_neg_of_pos hF hD0]
          by_cases h1 : B - C < 0
          · rw [if_pos h1]
            simp only [Prod.mk.injEq]
            exact ⟨clampR01_nonpos (div_nonpos_of_nonpos_of_nonneg hF.le hE0.le),
              (clampR01_nonpos (div_nonpos_of_nonpos_of_nonneg (by linarith) hA0.le)).symm⟩
          · -- B - C ≥ 0, with C ≥ 0; then B ≥ C ≥ 0 and A*F - B*C > D > 0 forces F > 0, contra
            exfalso
            push_neg at h1
            nlinarith [hS'D_gt, mul_nonneg (show (0:ℝ) ≤ B from by linarith) hC0,
              mul_neg_of_pos_of_neg hA0 hF]
        · -- S' ∈ [0,1]
          have hc' := clampR01_mem (not_lt.mp hS'0) (not_lt.mp hS'1)
          rw [hc']
          have hP' : B * S' + -C = A * S := by linarith [key2]
          rw [hP', if_pos (mul_neg_of_pos_of_neg hA0 hS0)]
          have hC0 : 0 ≤ C := by
            by_contra hc
            push_neg at hc
            have hS'ge : A * F - B * C ≥ 0 := by
              nlinarith [hS'mul, mul_nonneg (not_lt.mp hS'0) hD0.le]
            have hB : 0 < B := by
              by_contra hb
              push_neg at hb
              nlinarith [mul_nonneg (neg_nonneg.mpr hb) (neg_nonneg.mpr hc.le),
                mul_neg_of_pos_of_neg hA0 hF]
            have t1 : B * (B * F - C * E) < 0 := mul_neg_of_pos_of_neg hB hSD_neg
            have t2 : E * (A * F - B * C) ≥ 0 := mul_nonneg hE0.le hS'ge
            nlinarith [t1, t2, mul_neg_of_neg_of_pos hF hD0]
          simp only [Prod.mk.injEq]
          exact ⟨clampR01_nonpos (div_nonpos_of_nonpos_of_nonneg hF.le hE0.le),
            (clampR01_nonpos (div_nonpos_of_nonpos_of_nonneg (by linarith) hA0.le)).symm⟩
    · by_cases hFE : F > E
      · -- forward high branch: (clampR ((B-C)/A) 0 1, 1)
        rw [if_neg hF, if_pos hFE]
        by_cases hS'0 : S' < 0
        · have hS'D_neg : A * F - B * C < 0 := by
            nlinarith [hS'mul, mul_neg_of_neg_of_pos hS'0 hD0]
          rw [clampR01_neg hS'0, show B * 0 + -C = -C from by ring]
          have hB : 0 < B := by
            nlinarith [key1, mul_neg_of_neg_of_pos hS'0 hE0]
          by_cases hC : -C < 0
          · rw [if_pos hC]
            simp only [Prod.mk.injEq]
            constructor
            · exact clampR01_ge_one ((le_div_iff₀ hE0).mpr (by linarith))
            · refine (clampR01_nonpos (div_nonpos_of_nonpos_of_nonneg ?_ hA0.le)).symm
              nlinarith [hSD_neg, mul_pos hB (show 0 < F - E from by linarith)]
          · exfalso
            push_neg at hC
            nlinarith [hSD_neg, mul_pos hB (show 0 < F from by linarith),
              mul_nonneg (neg_nonneg.mpr (by linarith : C ≤ 0)) hE0.le]
        · by_cases hS'1 : 1 < S'
          · have hS'D_gt : A * F - B * C > A * E - B * B := by
              nlinarith [hS'mul, mul_lt_mul_of_pos_right hS'1 hD0]
            rw [clampR01_gt hS'1, show B * 1 + -C = B - C from by ring]
            by_cases h1 : B - C < 0
            · rw [if_pos h1]
              simp only [Prod.mk.injEq]
              exact ⟨clampR01_ge_one ((le_div_iff₀ hE0).mpr (by linarith)),
                (clampR01_nonpos (div_nonpos_of_nonpos_of_nonneg (by linarith) hA0.le)).symm⟩
            · by_cases h2 : B - C > A
              · rw [if_neg h1, if_pos h2]
                simp only [Prod.mk.injEq]
                constructor
                · refine clampR01_ge_one ((le_div_iff₀ hE0).mpr ?_)
                  rcases le_or_lt 0 B with hB | hB
                  · nlinarith
                  · nlinarith [hS'D_gt, mul_lt_mul_of_neg_left
                      (show C < B - A from by linarith) hB]
                · exact (clampR01_ge_one ((le_div_iff₀ hA0).mpr (by linarith))).symm
              · rw [if_neg h1, if_neg h2]
                simp only [Prod.mk.injEq]
                push_neg at h1 h2
                exact ⟨by trivial, (clampR01_mem (div_nonneg h1 hA0.le)
                  ((div_le_one hA0).mpr h2)).symm⟩
          · -- S' in [0,1]
            have hc' := clampR01_mem (not_lt.mp hS'0) (not_lt.mp hS'1)
            rw [hc']
            have hP' : B * S' + -C = A * S := by linarith [key2]
            rw [hP', if_pos (mul_neg_of_pos_of_neg hA0 hS0)]
            have hS'D_ge : A * F - B * C ≥ 0 := by
              nlinarith [hS'mul, mul_nonneg (not_lt.mp hS'0) hD0.le]
            have hS'D_le : A * F - B * C ≤ A * E - B * B := by
              nlinarith [hS'mul, mul_le_mul_of_nonneg_right (not_lt.mp hS'1) hD0.le]
            have hBC : B * C > B * B := by
              nlinarith [mul_lt_mul_of_pos_left hFE hA0]
            have hB : 0 < B := by
              rcases lt_trichotomy B 0 with hB | hB | hB
              · exfalso
                nlinarith [mul_le_mul_of_nonpos_left hS'D_le hB.le,
                  mul_lt_mul_of_pos_left hSD_neg hA0, hBC, mul_pos hD0 hD0,
                  mul_pos_of_neg_of_neg hB (show C < 0 from by nlinarith)]
              · exfalso
                rw [hB] at hBC
                simp at hBC
              · exact hB
            simp only [Prod.mk.injEq]
            constructor
            · exact clampR01_ge_one ((le_div_iff₀ hE0).mpr (by linarith))
            · refine (clampR01_nonpos (div_nonpos_of_nonpos_of_nonneg ?_ hA0.le)).symm
              nlinarith [hBC]
      · -- forward mid branch: 0 ≤ F ≤ E, result (0, F/E)
        rw [if_neg hF, if_neg hFE]
        push_neg at hF hFE
        by_cases hS'0 : S' < 0
        · have hS'D_neg : A * F - B * C < 0 := by
            nlinarith [hS'mul, mul_neg_of_neg_of_pos hS'0 hD0]
          rw [clampR01_neg hS'0, show B * 0 + -C = -C from by ring]
          by_cases hC : -C < 0
          · rw [if_pos hC]
            simp only [Prod.mk.injEq]
            exact ⟨clampR01_mem (div_nonneg hF hE0.le) ((div_le_one hE0).mpr hFE),
              by trivial⟩
          · exfalso
            push_neg at hC
            have hFpos : 0 < F := by
              rcases lt_or_eq_of_le hF with h | h
              · exact h
              · exfalso
                nlinarith [hSD_neg, mul_nonneg hC hE0.le,
                  mul_eq_zero_of_right B h.symm]
            have hB : B < 0 := by
              nlinarith [mul_nonneg hC hE0.le, hSD_neg]
            nlinarith [mul_lt_mul_of_neg_left hSD_neg hB,
              mul_lt_mul_of_pos_right hS'D_neg hE0, mul_pos hD0 hFpos]
        · by_cases hS'1 : 1 < S'
          · have hS'D_gt : A * F - B * C > A * E - B * B := by
              nlinarith [hS'mul, mul_lt_mul_of_pos_right hS'1 hD0]
            rw [clampR01_gt hS'1, show B * 1 + -C = B - C from by ring]
            have hB : B < 0 := by
              nlinarith [key1, mul_lt_mul_of_pos_right hS'1 hE0]
            by_cases h1 : B - C < 0
            · rw [if_pos h1]
              simp only [Prod.mk.injEq]
              exact ⟨clampR01_mem (div_nonneg hF hE0.le) ((div_le_one hE0).mpr hFE),
              by trivial⟩
            · exfalso
              push_neg at h1
              nlinarith [hS'D_gt, mul_le_mul_of_nonpos_left h1 hB.le,
                mul_le_mul_of_nonpos_left (show C ≤ B from by linarith) hB.le]
          · have hc' := clampR01_mem (not_lt.mp hS'0) (not_lt.mp hS'1)
            rw [hc']
            have hP' : B * S' + -C = A * S := by linarith [key2]
            rw [hP', if_pos (mul_neg_of_pos_of_neg hA0 hS0)]
            simp only [Prod.mk.injEq]
            exact ⟨clampR01_mem (div_nonneg hF hE0.le) ((div_le_one hE0).mpr hFE),
              by trivial⟩
  · by_cases hS1 : 1 < S
    · -- S > 1: forward state 1, forward proj = B + F
      have hSD_gt : B * F - C * E > A * E - B * B := by
        nlinarith [hSmul, mul_lt_mul_of_pos_right hS1 hD0]
      rw [clampR01_gt hS1, show B * 1 + F = B + F from by ring]
      by_cases hBF : B + F < 0
      · -- forward low branch: (clampR (-C/A) 0 1, 0)
        rw [if_pos hBF]
        by_cases hS'0 : S' < 0
        · have hS'D_neg : A * F - B * C < 0 := by
            nlinarith [hS'mul, mul_neg_of_neg_of_pos hS'0 hD0]
          rw [clampR01_neg hS'0, show B * 0 + -C = -C from by ring]
          by_cases hC : -C < 0
          · rw [if_pos hC]
            simp only [Prod.mk.injEq]
            have hF0 : F ≤ 0 := by
              by_contra hFp
              push_neg at hFp
              have hB : B < 0 := by linarith
              nlinarith [hSD_gt, hD0, mul_pos (neg_pos.mpr hB) hFp,
                mul_pos (show 0 < C from by linarith) hE0]
            exact ⟨clampR01_nonpos (div_nonpos_of_nonpos_of_nonneg hF0 hE0.le),
              (clampR01_neg (div_neg_of_neg_of_pos hC hA0)).symm⟩
          · by_cases hCA : -C > A
            · rw [if_neg hC, if_pos hCA]
              simp only [Prod.mk.injEq]
              exact ⟨clampR01_neg (div_neg_of_neg_of_pos hBF hE0),
                (clampR01_ge_one ((le_div_iff₀ hA0).mpr (by linarith))).symm⟩
            · rw [if_neg hC, if_neg hCA]
              push_neg at hC hCA
              simp only [Prod.mk.injEq]
              exact ⟨by trivial, (clampR01_mem (div_nonneg hC hA0.le)
                ((div_le_one hA0).mpr hCA)).symm⟩
        · by_cases hS'1 : 1 < S'
          · have hS'D_gt : A * F - B * C > A * E - B * B := by
              nlinarith [hS'mul, mul_lt_mul_of_pos_right hS'1 hD0]
            rw [clampR01_gt hS'1, show B * 1 + -C = B - C from by ring]
            have hB : 0 < B := by
              by_contra hb
              push_neg at hb
              have t1 : E * 1 < E * S' := mul_lt_mul_of_pos_left hS'1 hE0
              have t2 : B * S ≤ B * 1 := mul_le_mul_of_nonpos_left hS1.le hb
              linarith [key1]
            by_cases h1 : B - C < 0
            · rw [if_pos h1]
              simp only [Prod.mk.injEq]
              exact ⟨clampR01_nonpos (div_nonpos_of_nonpos_of_nonneg
                  (by linarith) hE0.le),
                (clampR01_nonpos (div_nonpos_of_nonpos_of_nonneg
                  (by linarith) hA0.le)).symm⟩
            · by_cases h2 : B - C > A
              · rw [if_neg h1, if_pos h2]
                simp only [Prod.mk.injEq]
                have hAC : A ≤ -C := by
                  by_contra hcon
                  push_neg at hcon
                  have t1 : A * F < A * -B := mul_lt_mul_of_pos_left (by linarith) hA0
                  have t2 : B * -C < B * A := mul_lt_mul_of_pos_left hcon hB
                  linarith [hS'D_gt, hD0]
                exact ⟨clampR01_neg (div_neg_of_neg_of_pos hBF hE0),
                  (clampR01_ge_one ((le_div_iff₀ hA0).mpr (by linarith))).symm⟩
              · exfalso
                push_neg at h1 h2
                have hu : (0:ℝ) < S - 1 := by linarith
                have hv : (0:ℝ) < S' - 1 := by linarith
                have hAS : A * (S - 1) ≤ B * (S' - 1) := by linarith [key2]
                have hES : E * (S' - 1) < B * (S - 1) := by linarith [key1, hE0]
                have t1 : A * (S - 1) * (E * (S' - 1)) ≤
                    B * (S' - 1) * (E * (S' - 1)) :=
                  mul_le_mul_of_nonneg_right hAS (mul_pos hE0 hv).le
                have t2 : E * (S' - 1) * (B * (S' - 1)) <
                    B * (S - 1) * (B * (S' - 1)) :=
                  mul_lt_mul_of_pos_right hES (mul_pos hB hv)
                have t3 : 0 < (A * E - B * B) * ((S - 1) * (S' - 1)) :=
                  mul_pos hD0 (mul_pos hu hv)
                nlinarith [t1, t2, t3]
          · -- swapped proj = A*S > A: swapped high branch
            have hc' := clampR01_mem (not_lt.mp hS'0) (not_lt.mp hS'1)
            rw [hc']
            have hP' : B * S' + -C = A * S := by linarith [key2]
            rw [hP', if_neg (not_lt.mpr (mul_pos hA0
                (show (0:ℝ) < S from by linarith)).le),
              if_pos (show A * S > A from by
                nlinarith [mul_lt_mul_of_pos_left hS1 hA0])]
            simp only [Prod.mk.injEq]
            have hAC : A ≤ -C := by
              rcases le_or_lt B 0 with hb | hb
              · have t1 : B * S' ≤ 0 :=
                  mul_nonpos_of_nonpos_of_nonneg hb (not_lt.mp hS'0)
                have t2 : A * 1 < A * S := mul_lt_mul_of_pos_left hS1 hA0
                linarith [key2]
              · have t1 : B * F < B * -B := mul_lt_mul_of_pos_left (by linarith) hb
                have t3 : A * E < -C * E := by nlinarith [hSD_gt, t1]
                by_contra hcon
                push_neg at hcon
                nlinarith [t3, mul_lt_mul_of_pos_right hcon hE0]
            exact ⟨clampR01_neg (div_neg_of_neg_of_pos hBF hE0),
              (clampR01_ge_one ((le_div_iff₀ hA0).mpr (by linarith))).symm⟩
      · by_cases hBFE : B + F > E
        · -- forward high branch: (clampR ((B-C)/A) 0 1, 1)
          rw [if_neg hBF, if_pos hBFE]
          push_neg at hBF
          by_cases hS'0 : S' < 0
          · have hS'D_neg : A * F - B * C < 0 := by
              nlinarith [hS'mul, mul_neg_of_neg_of_pos hS'0 hD0]
            rw [clampR01_neg hS'0, show B * 0 + -C = -C from by ring]
            have hASp : A * 1 < A * S := mul_lt_mul_of_pos_left hS1 hA0
            by_cases hC : -C < 0
            · exfalso
              have hB : B < 0 := by
                by_contra hb
                push_neg at hb
                have t1 : B * S' ≤ 0 := mul_nonpos_of_nonneg_of_nonpos hb hS'0.le
                linarith [key2]
              have hFneg : F < 0 := by
                by_contra hf
                push_neg at hf
                have t1 : B * F ≤ 0 := mul_nonpos_of_nonpos_of_nonneg hB.le hf
                nlinarith [hSD_gt, hD0, t1,
                  mul_pos (show 0 < C from by linarith) hE0]
              linarith [hBFE, hE0]
            · by_cases hCA : -C > A
              · rw [if_neg hC, if_pos hCA]
                simp only [Prod.mk.injEq]
                have hBCA : A ≤ B - C := by
                  rcases le_or_lt 0 B with hb | hb
                  · linarith
                  · by_contra hcon
                    push_neg at hcon
                    have t1 : A * (E + -B) < A * F :=
                      mul_lt_mul_of_pos_left (by linarith) hA0
                    have t2 : -B * -C < -B * (A - B) :=
                      mul_lt_mul_of_pos_left (by linarith) (by linarith)
                    nlinarith [hS'D_neg, t1, t2, hD0]
                exact ⟨clampR01_ge_one ((le_div_iff₀ hE0).mpr (by linarith)),
                  (clampR01_ge_one ((le_div_iff₀ hA0).mpr (by linarith))).symm⟩
              · exfalso
                push_neg at hC hCA
                have hB : B < 0 := by
                  by_contra hb
                  push_neg at hb
                  have t1 : B * S' ≤ 0 := mul_nonpos_of_nonneg_of_nonpos hb hS'0.le
                  linarith [key2]
                have t1 : -B * -B ≤ -B * F :=
                  mul_le_mul_of_nonneg_left (by linarith) (by linarith)
                have t2 : -C * E ≤ A * E := mul_le_mul_of_nonneg_right hCA hE0.le
                nlinarith [hSD_gt, t1, t2]
          · by_cases hS'1 : 1 < S'
            · have hS'D_gt : A * F - B * C > A * E - B * B := by
                nlinarith [hS'mul, mul_lt_mul_of_pos_right hS'1 hD0]
              rw [clampR01_gt hS'1, show B * 1 + -C = B - C from by ring]
              by_cases h1 : B - C < 0
              · rw [if_pos h1]
                simp only [Prod.mk.injEq]
                have hFE : E ≤ F := by
                  rcases le_or_lt B 0 with hb | hb
                  · have t1 : E * 1 < E * S' := mul_lt_mul_of_pos_left hS'1 hE0
                    have t2 : B * S ≤ 0 :=
                      mul_nonpos_of_nonpos_of_nonneg hb (by linarith)
                    linarith [key1]
                  · by_contra hcon
                    push_neg at hcon
                    have t1 : B * F < B * E := mul_lt_mul_of_pos_left hcon hb
                    have t2 : B * E < C * E :=
                      mul_lt_mul_of_pos_right (by linarith) hE0
                    linarith [hSD_gt, hD0]
                exact ⟨clampR01_ge_one ((le_div_iff₀ hE0).mpr (by linarith)),
                  (clampR01_neg (div_neg_of_neg_of_pos h1 hA0)).symm⟩
              · by_cases h2 : B - C > A
                · rw [if_neg h1, if_pos h2]
                  simp only [Prod.mk.injEq]
                  exact ⟨clampR01_ge_one ((le_div_iff₀ hE0).mpr (by linarith)),
                    (clampR01_ge_one ((le_div_iff₀ hA0).mpr (by linarith))).symm⟩
                · rw [if_neg h1, if_neg h2]
                  push_neg at h1 h2
                  simp only [Prod.mk.injEq]
                  exact ⟨by trivial, (clampR01_mem (div_nonneg h1 hA0.le)
                    ((div_le_one hA0).mpr h2)).symm⟩
            · have hc' := clampR01_mem (not_lt.mp hS'0) (not_lt.mp hS'1)
              rw [hc']
              have hP' : B * S' + -C = A * S := by linarith [key2]
              rw [hP', if_neg (not_lt.mpr (mul_pos hA0
                  (show (0:ℝ) < S from by linarith)).le),
                if_pos (show A * S > A from by
                  nlinarith [mul_lt_mul_of_pos_left hS1 hA0])]
              simp only [Prod.mk.injEq]
              have hBCA : A ≤ B - C := by
                rcases le_or_lt 0 B with hb | hb
                · have t1 : A * 1 < A * S := mul_lt_mul_of_pos_left hS1 hA0
                  have t2 : 0 ≤ B * (1 - S') :=
                    mul_nonneg hb (by linarith [not_lt.mp hS'1])
                  nlinarith [key2, t1, t2]
                · by_contra hcon
                  push_neg at hcon
                  have hu : (0:ℝ) < S - 1 := by linarith
                  have hii : A * (S - 1) < -B * (1 - S') := by nlinarith [key2]
                  have hw : (0:ℝ) < 1 - S' := by
                    by_contra hwn
                    push_neg at hwn
                    have t1 : -B * (1 - S') ≤ 0 :=
                      mul_nonpos_of_nonneg_of_nonpos (by linarith) hwn
                    nlinarith [hii, mul_pos hA0 hu]
                  have hi : E * (1 - S') < -B * (S - 1) := by linarith [key1]
                  have t1 : A * (S - 1) * (E * (1 - S')) <
                      -B * (1 - S') * (E * (1 - S')) :=
                    mul_lt_mul_of_pos_right hii (mul_pos hE0 hw)
                  have t2 : E * (1 - S') * (-B * (1 - S')) <
                      -B * (S - 1) * (-B * (1 - S')) :=
                    mul_lt_mul_of_pos_right hi (mul_pos (by linarith) hw)
                  have t3 : 0 < (A * E - B * B) * ((S - 1) * (1 - S')) :=
                    mul_pos hD0 (mul_pos hu hw)
                  nlinarith [t1, t2, t3]
              exact ⟨clampR01_ge_one ((le_div_iff₀ hE0).mpr (by linarith)),
                (clampR01_ge_one ((le_div_iff₀ hA0).mpr (by linarith))).symm⟩
        · -- forward mid branch: (1, (B+F)/E)
          rw [if_neg hBF, if_neg hBFE]
          push_neg at hBF hBFE
          by_cases hS'0 : S' < 0
          · have hS'D_neg : A * F - B * C < 0 := by
              nlinarith [hS'mul, mul_neg_of_neg_of_pos hS'0 hD0]
            rw [clampR01_neg hS'0, show B * 0 + -C = -C from by ring]
            have hASp : A * 1 < A * S := mul_lt_mul_of_pos_left hS1 hA0
            by_cases hC : -C < 0
            · exfalso
              have hB : B < 0 := by
                by_contra hb
                push_neg at hb
                have t1 : B * S' ≤ 0 := mul_nonpos_of_nonneg_of_nonpos hb hS'0.le
                linarith [key2]
              have hFpos : 0 < F := by linarith
              nlinarith [hSD_gt, hD0, mul_pos (neg_pos.mpr hB) hFpos,
                mul_pos (show 0 < C from by linarith) hE0]
            · by_cases hCA : -C > A
              · rw [if_neg hC, if_pos hCA]
                simp only [Prod.mk.injEq]
                exact ⟨clampR01_mem (div_nonneg hBF hE0.le)
                  ((div_le_one hE0).mpr hBFE), by trivial⟩
              · exfalso
                push_neg at hC hCA
                have hB : B < 0 := by
                  by_contra hb
                  push_neg at hb
                  have t1 : B * S' ≤ 0 := mul_nonpos_of_nonneg_of_nonpos hb hS'0.le
                  linarith [key2]
                have t1 : -B * -B ≤ -B * F :=
                  mul_le_mul_of_nonneg_left (by linarith) (by linarith)
                have t2 : -C * E ≤ A * E := mul_le_mul_of_nonneg_right hCA hE0.le
                nlinarith [hSD_gt, t1, t2]
          · by_cases hS'1 : 1 < S'
            · have hS'D_gt : A * F - B * C > A * E - B * B := by
                nlinarith [hS'mul, mul_lt_mul_of_pos_right hS'1 hD0]
              rw [clampR01_gt hS'1, show B * 1 + -C = B - C from by ring]
              have hB : 0 < B := by
                by_contra hb
                push_neg at hb
                have t1 : E * 1 < E * S' := mul_lt_mul_of_pos_left hS'1 hE0
                have t2 : B * S ≤ B * 1 := mul_le_mul_of_nonpos_left hS1.le hb
                linarith [key1]
              have hu : (0:ℝ) < S - 1 := by linarith
              have hv : (0:ℝ) < S' - 1 := by linarith
              have hES : E * (S' - 1) ≤ B * (S - 1) := by linarith [key1]
              by_cases h1 : B - C < 0
              · exfalso
                have hAS : A * (S - 1) < B * (S' - 1) := by linarith [key2, hA0]
                have t1 : A * (S - 1) * (E * (S' - 1)) <
                    B * (S' - 1) * (E * (S' - 1)) :=
                  mul_lt_mul_of_pos_right hAS (mul_pos hE0 hv)
                have t2 : E * (S' - 1) * (B * (S' - 1)) ≤
                    B * (S - 1) * (B * (S' - 1)) :=
                  mul_le_mul_of_nonneg_right hES (mul_pos hB hv).le
                have t3 : 0 < (A * E - B * B) * ((S - 1) * (S' - 1)) :=
                  mul_pos hD0 (mul_pos hu hv)
                nlinarith [t1, t2, t3]
              · by_cases h2 : B - C > A
                · rw [if_neg h1, if_pos h2]
                  simp only [Prod.mk.injEq]
                  exact ⟨clampR01_mem (div_nonneg hBF hE0.le)
                    ((div_le_one hE0).mpr hBFE), by trivial⟩
                · exfalso
                  push_neg at h1 h2
                  have hAS : A * (S - 1) ≤ B * (S' - 1) := by linarith [key2]
                  have t1 : A * (S - 1) * (E * (S' - 1)) ≤
                      B * (S' - 1) * (E * (S' - 1)) :=
                    mul_le_mul_of_nonneg_right hAS (mul_pos hE0 hv).le
                  have t2 : E * (S' - 1) * (B * (S' - 1)) ≤
                      B * (S - 1) * (B * (S' - 1)) :=
                    mul_le_mul_of_nonneg_right hES (mul_pos hB hv).le
                  have t3 : 0 < (A * E - B * B) * ((S - 1) * (S' - 1)) :=
                    mul_pos hD0 (mul_pos hu hv)
                  nlinarith [t1, t2, t3]
            · have hc' := clampR01_mem (not_lt.mp hS'0) (not_lt.mp hS'1)
              rw [hc']
              have hP' : B * S' + -C = A * S := by linarith [key2]
              rw [hP', if_neg (not_lt.mpr (mul_pos hA0
                  (show (0:ℝ) < S from by linarith)).le),
                if_pos (show A * S > A from by
                  nlinarith [mul_lt_mul_of_pos_left hS1 hA0])]
              simp only [Prod.mk.injEq]
              exact ⟨clampR01_mem (div_nonneg hBF hE0.le)
                ((div_le_one hE0).mpr hBFE), by trivial⟩
    · -- 0 ≤ S ≤ 1
      have hc : clampR S 0 1 = S := clampR01_mem (not_lt.mp hS0) (not_lt.mp hS1)
      rw [hc]
      have hSD_ge : 0 ≤ B * F - C * E := by
        nlinarith [hSmul, mul_nonneg (not_lt.mp hS0) hD0.le]
      have hSD_le : B * F - C * E ≤ A * E - B * B := by
        nlinarith [hSmul, mul_le_mul_of_nonneg_right (not_lt.mp hS1) hD0.le]
      by_cases hS'0 : S' < 0
      · -- forward low (P = E S' < 0)
        rw [clampR01_neg hS'0, show B * 0 + -C = -C from by ring]
        rw [if_pos (show B * S + F < 0 from by
          rw [key1]; exact mul_neg_of_pos_of_neg hE0 hS'0)]
        by_cases hC : -C < 0
        · rw [if_pos hC]
          simp only [Prod.mk.injEq]
          constructor
          · -- F ≤ 0
            refine clampR01_nonpos (div_nonpos_of_nonpos_of_nonneg ?_ hE0.le)
            by_contra hFc
            push_neg at hFc
            have hB : 0 < B := by
              nlinarith [mul_pos (show (0:ℝ) < -C * -1 from by nlinarith) hE0]
            have hP : B * S + F < 0 := by
              rw [key1]; exact mul_neg_of_pos_of_neg hE0 hS'0
            nlinarith [mul_nonneg hB.le (not_lt.mp hS0)]
          · exact (clampR01_nonpos (div_nonpos_of_nonpos_of_nonneg (by linarith) hA0.le)).symm
        · by_cases hCA : -C > A
          · rw [if_neg hC, if_pos hCA]
            simp only [Prod.mk.injEq]
            constructor
            · -- B + F ≤ 0
              refine clampR01_nonpos (div_nonpos_of_nonpos_of_nonneg ?_ hE0.le)
              have hBFB : B * (F + B) < 0 := by
                nlinarith [hSD_le, mul_lt_mul_of_pos_right (show A < -C from hCA) hE0]
              have hP : B * S + F < 0 := by
                rw [key1]; exact mul_neg_of_pos_of_neg hE0 hS'0
              rcases lt_trichotomy B 0 with hB | hB | hB
              · exfalso
                have hFB : 0 < F + B := by nlinarith
                nlinarith [mul_le_mul_of_nonpos_left
                  (show S ≤ 1 from not_lt.mp hS1) hB.le]
              · exfalso
                rw [hB] at hBFB
                simp at hBFB
              · nlinarith
            · exact (clampR01_ge_one ((le_div_iff₀ hA0).mpr (by linarith))).symm
          · rw [if_neg hC, if_neg hCA]
            push_neg at hC hCA
            simp only [Prod.mk.injEq]
            exact ⟨by trivial, (clampR01_mem (div_nonneg (by linarith) hA0.le)
              ((div_le_one hA0).mpr (by linarith))).symm⟩
      · by_cases hS'1 : 1 < S'
        · -- forward high (P = E S' > E)
          rw [clampR01_gt hS'1, show B * 1 + -C = B - C from by ring]
          have hPgt : B * S + F > E := by
            rw [key1]
            nlinarith [mul_lt_mul_of_pos_left hS'1 hE0]
          rw [if_neg (show ¬ B * S + F < 0 from by linarith), if_pos hPgt]
          have hS'D_gt : A * F - B * C > A * E - B * B := by
            nlinarith [hS'mul, mul_lt_mul_of_pos_right hS'1 hD0]
          by_cases h1 : B - C < 0
          · rw [if_pos h1]
            simp only [Prod.mk.injEq]
            constructor
            · refine clampR01_ge_one ((le_div_iff₀ hE0).mpr ?_)
              rcases le_or_lt B 0 with hB | hB
              · nlinarith [mul_nonneg (neg_nonneg.mpr hB) (not_lt.mp hS0)]
              · nlinarith [hS'D_gt, mul_pos hB (show 0 < C - B from by linarith)]
            · exact (clampR01_nonpos (div_nonpos_of_nonpos_of_nonneg
                (by linarith) hA0.le)).symm
          · by_cases h2 : B - C > A
            · rw [if_neg h1, if_pos h2]
              simp only [Prod.mk.injEq]
              constructor
              · refine clampR01_ge_one ((le_div_iff₀ hE0).mpr ?_)
                rcases le_or_lt 0 B with hB | hB
                · nlinarith [mul_le_mul_of_nonneg_left (not_lt.mp hS1) hB]
                · have hCE : C * E < (B - A) * E :=
                    mul_lt_mul_of_pos_right (by linarith) hE0
                  have hBF : B * F < B * (E - B) := by nlinarith [hSD_le, hCE]
                  by_contra hcon
                  push_neg at hcon
                  nlinarith [hBF, mul_pos (neg_pos.mpr hB)
                    (show 0 < E - B - F from by linarith)]
              · exact (clampR01_ge_one ((le_div_iff₀ hA0).mpr (by linarith))).symm
            · rw [if_neg h1, if_neg h2]
              push_neg at h1 h2
              simp only [Prod.mk.injEq]
              exact ⟨by trivial, (clampR01_mem (div_nonneg h1 hA0.le)
                ((div_le_one hA0).mpr h2)).symm⟩
        · -- both mid
          have hc' : clampR S' 0 1 = S' := clampR01_mem (not_lt.mp hS'0) (not_lt.mp hS'1)
          rw [hc']
          rw [if_neg (show ¬ B * S + F < 0 from by rw [key1]; nlinarith)]
          rw [if_neg (show ¬ B * S + F > E from by rw [key1]; nlinarith)]
          rw [if_neg (show ¬ B * S' + -C < 0 from by
            rw [show B * S' + -C = A * S from by linarith [key2]]
            nlinarith [not_lt.mp hS0])]
          rw [if_neg (show ¬ B * S' + -C > A from by
            rw [show B * S' + -C = A * S from by linarith [key2]]
            nlinarith [not_lt.mp hS1])]
          simp only [Prod.mk.injEq]
          constructor
          · rw [key1]
            field_simp [ne_of_gt hE0]
          · rw [show B * S' + -C = A * S from by linarith [key2]]
            field_simp [ne_of_gt hA0]

/-- C9: the closest-point computation between two segments is symmetric —
swapping the two segments swaps the returned pair — in every degenerate
branch (either squared segment length at most `EPS`, including both) and in
the both-non-degenerate branch whenever the pair is not near-parallel (the
denominator `A*E - B*B` exceeds `EPS`); only the near-parallel fallback of
the both-non-degenerate branch fails, as the counterexample below shows. -/
theorem closest_points_symmetric (s1 e1 s2 e2 : Vec3)
    (h : Vec3.dot (e1 - s1) (e1 - s1) ≤ EPS ∨ Vec3.dot (e2 - s2) (e2 - s2) ≤ EPS ∨
      EPS < Vec3.dot (e1 - s1) (e1 - s1) * Vec3.dot (e2 - s2) (e2 - s2) -
        Vec3.dot (e1 - s1) (e2 - s2) * Vec3.dot (e1 - s1) (e2 - s2)) :
    closest_points_between_segments s2 e2 s1 e1 =
      ((closest_points_between_segments s1 e1 s2 e2).2,
        (closest_points_between_segments s1 e1 s2 e2).1) := by
  by_cases hA : Vec3.dot (e1 - s1) (e1 - s1) ≤ EPS
  · by_cases hE : Vec3.dot (e2 - s2) (e2 - s2) ≤ EPS
    · -- both segments degenerate: the calls return (start, other_start)
      simp only [closest_points_between_segments]
      rw [if_pos ⟨hE, hA⟩, if_pos ⟨hA, hE⟩]
    · -- only the first segment degenerate
      have hfwd : closest_points_between_segments s1 e1 s2 e2 =
          (s1 + (0 : ℝ) • (e1 - s1),
            s2 + clampR (Vec3.dot (e2 - s2) (s1 - s2) /
              Vec3.dot (e2 - s2) (e2 - s2)) 0 1 • (e2 - s2)) := by
        simp only [closest_points_between_segments]
        rw [if_neg (fun hc => hE hc.2), if_pos hA]
      have hswp : closest_points_between_segments s2 e2 s1 e1 =
          (s2 + clampR (-(Vec3.dot (e2 - s2) (s2 - s1)) /
              Vec3.dot (e2 - s2) (e2 - s2)) 0 1 • (e2 - s2),
            s1 + (0 : ℝ) • (e1 - s1)) := by
        simp only [closest_points_between_segments]
        rw [if_neg (fun hc => hE hc.1), if_neg hE, if_pos hA]
      have hneg : Vec3.dot (e2 - s2) (s2 - s1) = -(Vec3.dot (e2 - s2) (s1 - s2)) := by
        simp only [Vec3.dot, Vec3.sub_def]
        ring
      rw [hfwd, hswp, hneg, neg_neg]
  · by_cases hE : Vec3.dot (e2 - s2) (e2 - s2) ≤ EPS
    · -- only the second segment degenerate
      have hfwd : closest_points_between_segments s1 e1 s2 e2 =
          (s1 + clampR (-(Vec3.dot (e1 - s1) (s1 - s2)) /
              Vec3.dot (e1 - s1) (e1 - s1)) 0 1 • (e1 - s1),
            s2 + (0 : ℝ) • (e2 - s2)) := by
        simp only [closest_points_between_segments]
        rw [if_neg (fun hc => hA hc.1), if_neg hA, if_pos hE]
      have hswp : closest_points_between_segments s2 e2 s1 e1 =
          (s2 + (0 : ℝ) • (e2 - s2),
            s1 + clampR (Vec3.dot (e1 - s1) (s2 - s1) /
              Vec3.dot (e1 - s1) (e1 - s1)) 0 1 • (e1 - s1)) := by
        simp only [closest_points_between_segments]
        rw [if_neg (fun hc => hA hc.2), if_pos hE]
      have hneg : Vec3.dot (e1 - s1) (s2 - s1) = -(Vec3.dot (e1 - s1) (s1 - s2)) := by
        simp only [Vec3.dot, Vec3.sub_def]
        ring
      rw [hfwd, hswp, hneg]
    · -- both non-degenerate: the hypothesis supplies the non-parallel bound
      have h1 : EPS < Vec3.dot (e1 - s1) (e1 - s1) := not_le.mp hA
      have h2 : EPS < Vec3.dot (e2 - s2) (e2 - s2) := not_le.mp hE
      have hD := (h.resolve_left hA).resolve_left hE
      have hdc : Vec3.dot (e2 - s2) (e1 - s1) = Vec3.dot (e1 - s1) (e2 - s2) := by
        simp only [Vec3.dot, Vec3.sub_def]
        ring
      have hd1 : Vec3.dot (e2 - s2) (s2 - s1) = -(Vec3.dot (e2 - s2) (s1 - s2)) := by
        simp only [Vec3.dot, Vec3.sub_def]
        ring
      have hd2 : Vec3.dot (e1 - s1) (s2 - s1) = -(Vec3.dot (e1 - s1) (s1 - s2)) := by
        simp only [Vec3.dot, Vec3.sub_def]
        ring
      rw [closest_points_eq_segParams s2 e2 s1 e1 h2 h1,
        closest_points_eq_segParams s1 e1 s2 e2 h1 h2]
      rw [hdc, hd1, hd2]
      rw [segParams_swap (Vec3.dot (e1 - s1) (e1 - s1)) (Vec3.dot (e2 - s2) (e2 - s2))
        (Vec3.dot (e1 - s1) (e2 - s2)) (Vec3.dot (e1 - s1) (s1 - s2))
        (Vec3.dot (e2 - s2) (s1 - s2)) h1 h2 hD]

/-- Witness: a degenerate point-segment against a unit segment satisfies the
hypothesis through its first (degeneracy) disjunct, and the two
closest-point calls return swapped pairs. -/
theorem closest_points_symmetric_witness :
    Vec3.dot ((⟨0, 0, 0⟩ : Vec3) - ⟨0, 0, 0⟩) ((⟨0, 0, 0⟩ : Vec3) - ⟨0, 0, 0⟩) ≤ EPS ∧
    closest_points_between_segments ⟨0, 1, 0⟩ ⟨1, 1, 0⟩ ⟨0, 0, 0⟩ ⟨0, 0, 0⟩ =
      ((closest_points_between_segments ⟨0, 0, 0⟩ ⟨0, 0, 0⟩ ⟨0, 1, 0⟩ ⟨1, 1, 0⟩).2,
        (closest_points_between_segments ⟨0, 0, 0⟩ ⟨0, 0, 0⟩ ⟨0, 1, 0⟩ ⟨1, 1, 0⟩).1) :=
  ⟨by norm_num [Vec3.dot, EPS],
    closest_points_symmetric ⟨0, 0, 0⟩ ⟨0, 0, 0⟩ ⟨0, 1, 0⟩ ⟨1, 1, 0⟩
      (Or.inl (by norm_num [Vec3.dot, EPS]))⟩

/-- Counterexample to C9 as stated: for the parallel segments
`(0,0,0)-(3,0,0)` and `(2,1,0)-(1,1,0)` the `|denom| ≤ EPS` fallback sets
the first parameter to `0`, and the two call orders return genuinely
different point pairs — `((1,0,0),(1,1,0))` one way but `((2,1,0),(2,0,0))`
the other — not swaps of each other. -/
theorem closest_points_swap_counterexample :
    closest_points_between_segments ⟨2, 1, 0⟩ ⟨1, 1, 0⟩ ⟨0, 0, 0⟩ ⟨3, 0, 0⟩ ≠
      ((closest_points_between_segments ⟨0, 0, 0⟩ ⟨3, 0, 0⟩ ⟨2, 1, 0⟩ ⟨1, 1, 0⟩).2,
        (closest_points_between_segments ⟨0, 0, 0⟩ ⟨3, 0, 0⟩ ⟨2, 1, 0⟩ ⟨1, 1, 0⟩).1) := by
  have h1 : closest_points_between_segments ⟨0, 0, 0⟩ ⟨3, 0, 0⟩ ⟨2, 1, 0⟩ ⟨1, 1, 0⟩
      = (⟨1, 0, 0⟩, ⟨1, 1, 0⟩) := by
    rw [closest_points_between_segments]
    norm_num [Vec3.dot, EPS, clampR]
  have h2 : closest_points_between_segments ⟨2, 1, 0⟩ ⟨1, 1, 0⟩ ⟨0, 0, 0⟩ ⟨3, 0, 0⟩
      = (⟨2, 1, 0⟩, ⟨2, 0, 0⟩) := by
    rw [closest_points_between_segments]
    norm_num [Vec3.dot, EPS, clampR]
  rw [h1, h2]
  norm_num [Prod.ext_iff, Vec3.mk.injEq]

end

end BevyGame
